import Mathlib

/-
Verification of the Alpine Flow positioning engine.

This file shallowly embeds the two core components of the repository:

* the Layered Layout Engine (the layout module: layoutNodes and its helper
  functions _hasExplicitPosition, _assignRanks, _barycenterOrdering,
  _orderLayerByBarycenter, _assignCoordinates, _getNodeSize, _getNodeDim,
  _getMaxRankSize, _normalizePositions), and
* the Force Simulation Engine (createForceSimulation: setNodes, setEdges,
  setOptions, reheat, setAlphaTarget, setAlpha, tick, pinNode,
  movePinnedNode, unpinNode, pulseAmbient and the four force passes).

Modelling conventions, used throughout:

* Node ids (strings in the source) are represented by naturals; nothing in
  the embedded code inspects ids beyond equality.
* JavaScript numbers are represented by exact rationals (ℚ).  Math.sqrt /
  Math.hypot, Math.random and Math.sin / Math.cos are not rational-valued,
  so the force model is parameterised over interpretations of these
  functions; concrete theorems instantiate the square root with ratSqrt,
  which agrees with the true square root at every perfect square that the
  concrete inputs reach.  A second model (namespace ForceJ) represents a
  JavaScript number as finite-or-NaN-or-±Infinity, which is needed for the
  claims about non-finite inputs; it covers the state-mutating operations,
  which is where the source's Number.isFinite guards live.
* JavaScript Map / Set are insertion-ordered; they are embedded as
  association lists with in-place update (upsert), which preserves exactly
  the source's iteration order.
* The rank-assignment DFS recurses without any structural bound in the
  source; the embedding gives it fuel (nodes.length + 1 per top-level
  call) and returns none on exhaustion.  A theorem below proves the fuel
  is never exhausted, which is the faithful rendering of "the recursion
  terminates".  The embedded DFS also records, as pure instrumentation in
  an extra state field, the edges it skips because the target is already
  on the recursion stack (the source's back edges); no control flow or
  rank value depends on that field.
-/

namespace AlpineFlow

/-- In-place update of an insertion-ordered association list, mirroring
JavaScript Map.set: an existing key keeps its position and gets the new
value, a new key is appended. -/
def upsert {α : Type} (m : List (Nat × α)) (k : Nat) (v : α) : List (Nat × α) :=
  match m with
  | [] => [(k, v)]
  | (k', v') :: rest => if k' = k then (k, v) :: rest else (k', v') :: upsert rest k v

/-- Map.get: the binding of the key (keys are unique by construction). -/
def alookup {α : Type} : List (Nat × α) → Nat → Option α
  | [], _ => none
  | p :: rest, k => if p.1 = k then some p.2 else alookup rest k


namespace Layout

/-- A layout node (the layout module reads `id`, the `_needsLayout` flag,
`position`, and the measured / explicit / initial dimension fields; all
other fields of the source records are never consulted and are omitted). -/
structure LNode where
  id : Nat
  needsLayoutFlag : Option Bool := none
  position : Option (ℚ × ℚ) := none
  measuredW : Option ℚ := none
  measuredH : Option ℚ := none
  width : Option ℚ := none
  height : Option ℚ := none
  initialW : Option ℚ := none
  initialH : Option ℚ := none
deriving DecidableEq, Repr

/-- `'TB' | 'LR' | 'BT' | 'RL'` -/
inductive LDir | TB | LR | BT | RL
deriving DecidableEq, Repr

/-- `'start' | 'center' | 'end'` -/
inductive LAlign | alignStart | alignCenter | alignEnd
deriving DecidableEq, Repr

/-- Layout options; the field defaults are LAYOUT_DEFAULTS, so `{}` is the
record that `{ ...LAYOUT_DEFAULTS, ...opts }` yields for empty `opts`. -/
structure LOpts where
  direction : LDir := .TB
  nodeSpacing : ℚ := 50
  rankSpacing : ℚ := 100
  nodeWidth : ℚ := 172
  nodeHeight : ℚ := 36
  alignment : LAlign := .alignCenter
deriving DecidableEq, Repr

/-- LAYOUT_DEFAULTS from the source. -/
def LAYOUT_DEFAULTS : LOpts := {}

/-- `options.direction === 'LR' || options.direction === 'RL'`. -/
def LDir.isHorizontal : LDir → Bool
  | .LR => true
  | .RL => true
  | _ => false

/-- `options.direction === 'BT' || options.direction === 'RL'`. -/
def LDir.isReversed : LDir → Bool
  | .BT => true
  | .RL => true
  | _ => false

/-- `_hasExplicitPosition` from the source: the explicit `_needsLayout`
flag wins when present (`=== true` → no explicit position,
`=== false` → explicit position); otherwise fall back to the presence of
the `position` field (`if (!node.position) return false; return true;`). -/
def hasExplicitPosition (node : LNode) : Bool :=
  match node.needsLayoutFlag with
  | some true => false
  | some false => true
  | none => node.position.isSome

/-- Forward or backward adjacency: id → insertion-ordered set of ids. -/
abbrev Graph := List (Nat × List Nat)

/-- `adj.get(id)` with a missing key read as the empty set
(`adj.get(id) || []`). -/
def adjGet (g : Graph) (id : Nat) : List Nat := (alookup g id).getD []

/-- `adj.get(k).add(v)`: append `v` to the set at `k` if not present. -/
def setAdd (g : Graph) (k v : Nat) : Graph :=
  upsert g k (if v ∈ adjGet g k then adjGet g k else adjGet g k ++ [v])

/-- The two adjacency maps that `layoutNodes` builds: an empty set per
node (duplicated ids re-set the entry, exactly as Map.set does), then one
pass over the edges, dropping any edge with an endpoint that is not a
known node id. -/
def buildAdj (nodes : List LNode) (edges : List (Nat × Nat)) : Graph × Graph :=
  let ids := nodes.map (·.id)
  let init : Graph := nodes.foldl (fun g n => upsert g n.id []) []
  edges.foldl
    (fun gg e =>
      if e.1 ∈ ids ∧ e.2 ∈ ids then (setAdd gg.1 e.1 e.2, setAdd gg.2 e.2 e.1) else gg)
    (init, init)

/-- The mutable state of `_assignRanks`: the `ranks` map, the `visited`
set and the `inStack` set.  The `back` field is instrumentation only (the
edges skipped because the target was on the recursion stack); nothing in
the embedded control flow reads it. -/
structure RState where
  ranks : List (Nat × Nat) := []
  visited : List Nat := []
  inStack : List Nat := []
  back : List (Nat × Nat) := []
deriving DecidableEq, Repr

/-- `ranks.get(id) ?? 0`. -/
def rankGetD (m : List (Nat × Nat)) (id : Nat) : Nat := (alookup m id).getD 0

/-- The pre-recursion part of the `for (const child of adj.get(id))` loop
body of the source's `dfs`: raise the child's rank to `childDepth` when
larger (`if (depth + 1 > childCurrentRank) ranks.set(child, depth + 1)`).
The back-edge record (taken exactly when the recursive call's `inStack`
test would fire) is instrumentation; only the `back` field depends on
it. -/
def kidBump (parent c childDepth : Nat) (s : RState) : RState :=
  let s0 := if c ∈ s.inStack then { s with back := s.back ++ [(parent, c)] } else s
  if childDepth > rankGetD s0.ranks c then { s0 with ranks := upsert s0.ranks c childDepth }
  else s0

/-- The `for (const child of adj.get(id))` loop of the source's `dfs`:
bump each child's rank, then recurse via `step`. -/
def runKids (step : Nat → RState → Option RState) (parent : Nat) :
    List Nat → Nat → RState → Option RState
  | [], _, s => some s
  | c :: cs, childDepth, s =>
    match step c (kidBump parent c childDepth s) with
    | none => none
    | some s2 => runKids step parent cs childDepth s2

/-- The entry work of the source's `dfs`: `inStack.add(id)`,
`visited.add(id)`, `ranks.set(id, Math.max(ranks.get(id) ?? 0, depth))`. -/
def markNode (id depth : Nat) (s : RState) : RState :=
  { s with
    inStack := id :: s.inStack,
    visited := s.visited ++ [id],
    ranks := upsert s.ranks id (max (rankGetD s.ranks id) depth) }

/-- The source's `dfs(id, depth)`: return at once on a stack hit (back
edge) or an already-visited node, otherwise mark the node, raise its rank
to `depth`, visit the children, and pop the stack.  `fuel` bounds the
recursion depth; the source has no such bound, and the theorem
`dfs_isSome` below shows the bound is never hit with the fuel
`_assignRanks` supplies. -/
def dfs (g : Graph) : Nat → Nat → Nat → RState → Option RState
  | 0, _, _, _ => none
  | fuel+1, id, depth, s =>
    if id ∈ s.inStack then some s
    else if id ∈ s.visited then some s
    else
      match runKids (fun c s' => dfs g fuel c (depth+1) s') id (adjGet g id) (depth+1)
          (markNode id depth s) with
      | none => none
      | some s2 => some { s2 with inStack := s2.inStack.erase id }

/-- The number of ids of `U` not yet visited: the measure that shrinks at
every productive `dfs` call (used only in the termination proof). -/
def unvisited (U : List Nat) (s : RState) : Nat :=
  (U.filter (fun a => decide (a ∉ s.visited))).length

/-- `_assignRanks`: depth-first from every root (in-degree 0); if there
are no roots, seed from the first node; finally sweep all still-unvisited
nodes. -/
def assignRanks (nodes : List LNode) (adj inAdj : Graph) : Option RState :=
  let fuel := nodes.length + 1
  let roots := nodes.filter (fun n => (adjGet inAdj n.id).length == 0)
  let seeded : Option RState :=
    if roots.isEmpty then
      match nodes with
      | [] => some {}
      | n :: _ => dfs adj fuel n.id 0 {}
    else some {}
  seeded.bind (fun s1 =>
    (roots.foldlM (fun s (r : LNode) => dfs adj fuel r.id 0 s) s1).bind (fun s2 =>
      nodes.foldlM (fun s n => if n.id ∈ s.visited then some s else dfs adj fuel n.id 0 s) s2))

/-- `referenceLayer.forEach((id, idx) => refPositions.set(id, idx))`. -/
def refPositionsOf (l : List Nat) : List (Nat × Nat) :=
  (l.foldl (fun (p : List (Nat × Nat) × Nat) id => (upsert p.1 id p.2, p.2 + 1)) ([], 0)).1

/-- The sort key `_orderLayerByBarycenter` computes for one node: `none`
plays Infinity (no neighbours, or no neighbour present in the reference
layer), otherwise the mean reference index of the neighbours. -/
def baryKey (adjacency : Graph) (refPositions : List (Nat × Nat)) (nodeId : Nat) : Option ℚ :=
  let neighbors := adjGet adjacency nodeId
  if neighbors.isEmpty then none
  else
    let hits := neighbors.filterMap (fun nb => alookup refPositions nb)
    if hits.length = 0 then none
    else some ((hits.foldl (fun a b => a + (b : ℚ)) 0) / (hits.length : ℚ))

/-- The order the comparator `(a, b) => { if (ba === bb) return 0; return ba - bb; }`
induces, with `none` as Infinity. -/
def keyLt (a b : Option ℚ) : Bool :=
  match a, b with
  | some x, some y => decide (x < y)
  | some _, none => true
  | none, _ => false

/-- Stable insertion of one element into an already-sorted list: it goes
after every element whose key is not greater. -/
def insertStable (key : Nat → Option ℚ) (a : Nat) : List Nat → List Nat
  | [] => [a]
  | b :: l => if keyLt (key a) (key b) then a :: b :: l else b :: insertStable key a l

/-- A stable sort by key (Array.prototype.sort is stable, and the source's
comparator is a consistent total preorder on the keys). -/
def stableSortByKey (key : Nat → Option ℚ) (l : List Nat) : List Nat :=
  l.foldl (fun acc a => insertStable key a acc) []

/-- `_orderLayerByBarycenter`, reordering one layer by the mean position
of its neighbours in the reference layer. -/
def orderLayerByBarycenter (adjacency : Graph) (referenceLayer layer : List Nat) : List Nat :=
  stableSortByKey (baryKey adjacency (refPositionsOf referenceLayer)) layer

/-- One directed pass of `_barycenterOrdering`: each layer after the first
is reordered against the already-reordered previous layer. -/
def chainPass (adjacency : Graph) (prev : List Nat) : List (List Nat) → List (List Nat)
  | [] => []
  | l :: ls =>
    let l' := orderLayerByBarycenter adjacency prev l
    l' :: chainPass adjacency l' ls

/-- One iteration of `_barycenterOrdering`: a down pass (layers 1..k
against their parents, via the reverse adjacency) then an up pass (layers
k-1..0 against their children, via the forward adjacency). -/
def barycenterIter (adj inAdj : Graph) (layers : List (List Nat)) : List (List Nat) :=
  let d := match layers with | [] => ([] : List (List Nat)) | h :: t => h :: chainPass inAdj h t
  match d.reverse with
  | [] => []
  | h :: t => (h :: chainPass adj h t).reverse

/-- `_barycenterOrdering`: four iterations of down-then-up. -/
def barycenterOrdering (adj inAdj : Graph) (layers : List (List Nat)) : List (List Nat) :=
  (List.range 4).foldl (fun ls _ => barycenterIter adj inAdj ls) layers

/-- JavaScript `a || b` on an optional number: value 0 and a missing field
are both falsy. -/
def jsOrQ (v : Option ℚ) (w : ℚ) : ℚ :=
  match v with
  | some q => if q = 0 then w else q
  | none => w

/-- `_getNodeSize`: the cross-axis extent of a node. -/
def getNodeSize (node : Option LNode) (fallback : ℚ) (isHorizontal : Bool) : ℚ :=
  match node with
  | none => fallback
  | some n =>
    if isHorizontal then jsOrQ n.measuredH (jsOrQ n.height (jsOrQ n.initialH fallback))
    else jsOrQ n.measuredW (jsOrQ n.width (jsOrQ n.initialW fallback))

/-- `_getNodeDim` for `dim = 'width'` (`useWidth = true`) or
`dim = 'height'`. -/
def getNodeDim (node : Option LNode) (fallback : ℚ) (useWidth : Bool) : ℚ :=
  match node with
  | none => fallback
  | some n =>
    if useWidth then jsOrQ n.measuredW (jsOrQ n.width (jsOrQ n.initialW fallback))
    else jsOrQ n.measuredH (jsOrQ n.height (jsOrQ n.initialH fallback))

/-- `_getMaxRankSize`: the largest rank-axis extent in a layer, the
fallback if that maximum is falsy. -/
def getMaxRankSize (layer : List Nat) (nodeMap : List (Nat × LNode)) (fallback : ℚ)
    (isHorizontal : Bool) : ℚ :=
  let m := layer.foldl
    (fun m id =>
      let size :=
        match alookup nodeMap id with
        | none => fallback
        | some n =>
          if isHorizontal then jsOrQ n.measuredW (jsOrQ n.width (jsOrQ n.initialW fallback))
          else jsOrQ n.measuredH (jsOrQ n.height (jsOrQ n.initialH fallback))
      if size > m then size else m)
    0
  if m = 0 then fallback else m

/-- `_normalizePositions`: translate so the minimum x and y are 0.  (On an
empty map the source would subtract Infinity; `layoutNodes` never reaches
that case, and the embedding leaves the empty map unchanged.) -/
def normalizePositions (positions : List (Nat × (ℚ × ℚ))) (_isHorizontal : Bool) :
    List (Nat × (ℚ × ℚ)) :=
  match positions with
  | [] => positions
  | p :: ps =>
    let minX := (ps.map (fun q => q.2.1)).foldl min p.2.1
    let minY := (ps.map (fun q => q.2.2)).foldl min p.2.2
    positions.map (fun q => (q.1, (q.2.1 - minX, q.2.2 - minY)))

/-- `_assignCoordinates`. -/
def assignCoordinates (layers : List (List Nat)) (nodeMap : List (Nat × LNode))
    (options : LOpts) (isHorizontal isReversed : Bool) : List (Nat × (ℚ × ℚ)) :=
  let layerWidths := layers.map (fun layer =>
    (layer.foldl
      (fun t id =>
        t + getNodeSize (alookup nodeMap id)
              (if isHorizontal then options.nodeHeight else options.nodeWidth) isHorizontal)
      0)
    + max 0 ((layer.length : ℚ) - 1) * options.nodeSpacing)
  let maxLayerWidth := layerWidths.foldl max 0
  let res := ((layers.zip layerWidths).foldl
    (fun (acc : ℚ × List (Nat × (ℚ × ℚ))) lw =>
      let rankOffset := acc.1
      let layer := lw.1
      let crossOffset : ℚ :=
        match options.alignment with
        | .alignCenter => (maxLayerWidth - lw.2) / 2
        | .alignEnd => maxLayerWidth - lw.2
        | .alignStart => 0
      let inner := layer.foldl
        (fun (acc2 : ℚ × List (Nat × (ℚ × ℚ))) id =>
          let node := alookup nodeMap id
          let w := getNodeDim node options.nodeWidth true
          let h := getNodeDim node options.nodeHeight false
          let crossSize := if isHorizontal then h else w
          let xy : ℚ × ℚ :=
            if isHorizontal then (if isReversed then -rankOffset else rankOffset, acc2.1)
            else (acc2.1, if isReversed then -rankOffset else rankOffset)
          (acc2.1 + crossSize + options.nodeSpacing, upsert acc2.2 id xy))
        (crossOffset, acc.2)
      let rankSize := getMaxRankSize layer nodeMap
        (if isHorizontal then options.nodeWidth else options.nodeHeight) isHorizontal
      (rankOffset + rankSize + options.rankSpacing, inner.2))
    ((0 : ℚ), ([] : List (Nat × (ℚ × ℚ))))).2
  if isReversed then normalizePositions res isHorizontal else res

/-- The `needsLayout` set built in step 1 of `layoutNodes` (insertion
order). -/
def needsLayoutIds (nodes : List LNode) : List Nat :=
  nodes.foldl
    (fun acc n =>
      if hasExplicitPosition n then acc else if n.id ∈ acc then acc else acc ++ [n.id])
    []

/-- The `nodeMap` built in step 1 of `layoutNodes`. -/
def mkNodeMap (nodes : List LNode) : List (Nat × LNode) :=
  nodes.foldl (fun m n => upsert m n.id n) []

/-- `layoutNodes(nodes, edges, opts)`.  `none` would mean the embedded
rank DFS ran out of fuel; the termination theorem shows it never does. -/
def layoutNodes (nodes : List LNode) (edges : List (Nat × Nat)) (opts : LOpts) :
    Option (List LNode) :=
  if nodes.isEmpty then some nodes else
  let options := opts
  let isHorizontal := options.direction.isHorizontal
  let isReversed := options.direction.isReversed
  let needsLayout := needsLayoutIds nodes
  let nodeMap := mkNodeMap nodes
  if needsLayout.isEmpty then some nodes else
  let gg := buildAdj nodes edges
  match assignRanks nodes gg.1 gg.2 with
  | none => none
  | some rs =>
    let maxRank := rs.ranks.foldl (fun m p => max m p.2) 0
    let layers := (List.range (maxRank + 1)).map
      (fun r => (nodes.filter (fun n => rankGetD rs.ranks n.id == r)).map (·.id))
    let layers := barycenterOrdering gg.1 gg.2 layers
    let positions := assignCoordinates layers nodeMap options isHorizontal isReversed
    some (nodes.map (fun n =>
      if n.id ∈ needsLayout then
        match alookup positions n.id with
        | some p => { n with position := some p }
        | none => n
      else n))

end Layout

namespace Force

/-- A simulation node as `setNodes` constructs it. -/
structure SNode where
  id : Nat
  x : ℚ
  y : ℚ
  vx : ℚ := 0
  vy : ℚ := 0
  fx : Option ℚ := none
  fy : Option ℚ := none
  mass : ℚ := 1
deriving DecidableEq, Repr

/-- Simulation options; field defaults are FORCE_DEFAULTS.  (`anchorNodeId`
is an id; the default id string is represented by 0.) -/
structure FOptions where
  linkDistance : ℚ := 100
  linkStrength : ℚ := 0.08
  chargeStrength : ℚ := -300
  collisionRadius : ℚ := 45
  centerStrength : ℚ := 0.05
  centerX : ℚ := 0
  centerY : ℚ := 0
  anchorNodeId : Nat := 0
  alpha : ℚ := 0.3
  alphaMin : ℚ := 0.002
  alphaDecay : ℚ := 0.04
  alphaTarget : ℚ := 0
  velocityDecay : ℚ := 0.2
  maxChargeDistance : ℚ := 500
  minDistance : ℚ := 8
deriving DecidableEq, Repr

/-- FORCE_DEFAULTS from the source. -/
def FORCE_DEFAULTS : FOptions := {}

/-- A partial options record, as accepted by `setOptions`
(`{ ...options, ...nextOptions }`): `none` plays an absent key. -/
structure OptPatch where
  linkDistance : Option ℚ := none
  linkStrength : Option ℚ := none
  chargeStrength : Option ℚ := none
  collisionRadius : Option ℚ := none
  centerStrength : Option ℚ := none
  centerX : Option ℚ := none
  centerY : Option ℚ := none
  anchorNodeId : Option Nat := none
  alpha : Option ℚ := none
  alphaMin : Option ℚ := none
  alphaDecay : Option ℚ := none
  alphaTarget : Option ℚ := none
  velocityDecay : Option ℚ := none
  maxChargeDistance : Option ℚ := none
  minDistance : Option ℚ := none
deriving DecidableEq, Repr

/-- `{ ...options, ...nextOptions }`. -/
def mergeOptions (o : FOptions) (p : OptPatch) : FOptions where
  linkDistance := p.linkDistance.getD o.linkDistance
  linkStrength := p.linkStrength.getD o.linkStrength
  chargeStrength := p.chargeStrength.getD o.chargeStrength
  collisionRadius := p.collisionRadius.getD o.collisionRadius
  centerStrength := p.centerStrength.getD o.centerStrength
  centerX := p.centerX.getD o.centerX
  centerY := p.centerY.getD o.centerY
  anchorNodeId := p.anchorNodeId.getD o.anchorNodeId
  alpha := p.alpha.getD o.alpha
  alphaMin := p.alphaMin.getD o.alphaMin
  alphaDecay := p.alphaDecay.getD o.alphaDecay
  alphaTarget := p.alphaTarget.getD o.alphaTarget
  velocityDecay := p.velocityDecay.getD o.velocityDecay
  maxChargeDistance := p.maxChargeDistance.getD o.maxChargeDistance
  minDistance := p.minDistance.getD o.minDistance

/-- The closure state of one `createForceSimulation` instance: `options`,
`alpha`, the node map (insertion-ordered, unique ids) and the link list.
The frame-scheduling state (`running`, `frameId`, `onTick`) belongs to the
host-driven loop, which is out of scope of the embedded claims. -/
structure SimState where
  options : FOptions
  alpha : ℚ
  nodes : List SNode
  links : List (Nat × Nat)
deriving DecidableEq, Repr

/-- `createForceSimulation(initialOptions)`: `alpha = options.alpha`,
empty node map, no links. -/
def createForceSimulation (initialOptions : FOptions) : SimState :=
  { options := initialOptions, alpha := initialOptions.alpha, nodes := [], links := [] }

/-- `nodes.get(id)`. -/
def getNode : List SNode → Nat → Option SNode
  | [], _ => none
  | n :: rest, id => if n.id = id then some n else getNode rest id

/-- `next.set(node.id, ...)`: Map.set semantics (unique ids, existing key
keeps its position). -/
def upsertNode (l : List SNode) (n : SNode) : List SNode :=
  match l with
  | [] => [n]
  | m :: rest => if m.id = n.id then n :: rest else m :: upsertNode rest n

/-- In-place mutation of the node with the given id (ids are unique in the
node map, so at most one entry changes). -/
def updNode (l : List SNode) (id : Nat) (f : SNode → SNode) : List SNode :=
  l.map (fun n => if n.id = id then f n else n)

/-- The caller-visible node record passed to `setNodes` (only `id` and
`position` are read). -/
structure NodeSpec where
  id : Nat
  position : Option (ℚ × ℚ) := none
deriving DecidableEq, Repr

/-- `setNodes(nodeList)`: rebuild the node map in list order, merging by
id.  In this rational-valued model `Number.isFinite(existing?.x)` is
simply the presence of an existing node (every ℚ is finite); the ForceJ
model below keeps the finiteness tests. -/
def setNodes (list : List NodeSpec) (s : SimState) : SimState :=
  let next := list.foldl
      (fun acc nd =>
        let existing := getNode s.nodes nd.id
        let x : ℚ :=
          match existing with
          | some ex => ex.x
          | none => match nd.position with | some p => p.1 | none => 0
        let y : ℚ :=
          match existing with
          | some ex => ex.y
          | none => match nd.position with | some p => p.2 | none => 0
        upsertNode acc
          { id := nd.id, x := x, y := y,
            vx := (existing.map (·.vx)).getD 0, vy := (existing.map (·.vy)).getD 0,
            fx := (existing.map (·.fx)).getD none, fy := (existing.map (·.fy)).getD none,
            mass := 1 })
      []
  { s with nodes := next }

/-- `setEdges(edgeList)`: keep only edges whose two endpoints are known. -/
def setEdges (list : List (Nat × Nat)) (s : SimState) : SimState :=
  { s with links := list.filter (fun e => (getNode s.nodes e.1).isSome && (getNode s.nodes e.2).isSome) }

/-- `setOptions(nextOptions)`: shallow merge; an `alpha` key overwrites
the live alpha, unclamped. -/
def setOptions (p : OptPatch) (s : SimState) : SimState :=
  let options := mergeOptions s.options p
  match p.alpha with
  | some a => { s with options := options, alpha := a }
  | none => { s with options := options }

/-- `reheat(nextAlphaTarget)`: raise alpha and the alphaTarget floor.
(The `start` call it may issue touches only the scheduling state.) -/
def reheat (t : ℚ) (s : SimState) : SimState :=
  { s with alpha := max s.alpha t,
           options := { s.options with alphaTarget := max s.options.alphaTarget t } }

/-- `setAlphaTarget(t)`, clamped at 0. -/
def setAlphaTarget (t : ℚ) (s : SimState) : SimState :=
  { s with options := { s.options with alphaTarget := max 0 t } }

/-- `setAlpha(v)`, clamped at 0. -/
def setAlpha (v : ℚ) (s : SimState) : SimState :=
  { s with alpha := max 0 v }

/-- `pinNode(id, x, y)` (unknown id: no-op).  Every ℚ is finite, so the
source's `Number.isFinite` guards all pass here; ForceJ keeps them. -/
def pinNode (id : Nat) (px py : ℚ) (s : SimState) : SimState :=
  let f : SNode → SNode :=
    fun n => { n with x := px, y := py, fx := some px, fy := some py, vx := 0, vy := 0 }
  { s with nodes := updNode s.nodes id f }

/-- `movePinnedNode(id, x, y)` (unknown id: no-op; finite inputs in ℚ). -/
def movePinnedNode (id : Nat) (px py : ℚ) (s : SimState) : SimState :=
  let f : SNode → SNode :=
    fun n => { n with x := px, y := py, fx := some px, fy := some py, vx := 0, vy := 0 }
  { s with nodes := updNode s.nodes id f }

/-- `unpinNode(id)`. -/
def unpinNode (id : Nat) (s : SimState) : SimState :=
  { s with nodes := updNode s.nodes id (fun n => { n with fx := none, fy := none }) }

section Physics

/- The physics step is parameterised over the interpretations of the
irrational / nondeterministic library functions it calls:
`sqrtF` for Math.sqrt and Math.hypot (hypot dx dy = sqrt (dx²+dy²)),
`randF` for the stream of Math.random() draws (indexed by a counter that
the charge pass threads), and `sinF`, `cosF` for Math.sin / Math.cos. -/
variable (sqrtF : ℚ → ℚ) (randF : ℕ → ℚ) (sinF cosF : ℚ → ℚ)

/-- `applyCenterForce(currentAlpha, dt)`. -/
def applyCenterForce (currentAlpha dt : ℚ) (s : SimState) : SimState :=
  if s.options.centerStrength = 0 then s
  else if s.nodes.isEmpty then s
  else
    let strength := s.options.centerStrength * currentAlpha * dt
    { s with nodes := s.nodes.map (fun n =>
        match n.fx, n.fy with
        | some _, some _ => n
        | _, _ =>
          { n with vx := n.vx + (s.options.centerX - n.x) * strength,
                   vy := n.vy + (s.options.centerY - n.y) * strength }) }

/-- The `if (!dist) { dist = 0.001; dx = 0.001; }` patch shared by link
and collision passes (`dy` keeps its value): returns (dist, dx). -/
def fixZeroDist (dist0 dx0 : ℚ) : ℚ × ℚ :=
  if dist0 = 0 then (0.001, 0.001) else (dist0, dx0)

/-- `applyLinkForce(currentAlpha, dt)`. -/
def applyLinkForce (currentAlpha dt : ℚ) (s : SimState) : SimState :=
  if s.links.isEmpty || s.options.linkStrength = 0 then s
  else
    let targetDistance := max 1 s.options.linkDistance
    let strength := s.options.linkStrength * currentAlpha * dt
    let next := s.links.foldl
        (fun ns link =>
          match getNode ns link.1, getNode ns link.2 with
          | some source, some target =>
            let dx0 := target.x - source.x
            let dy := target.y - source.y
            let p := fixZeroDist (sqrtF (dx0 * dx0 + dy * dy)) dx0
            let force := (p.1 - targetDistance) / p.1 * strength
            let fx := p.2 * force
            let fy := dy * force
            let ns1 :=
              if source.fx = none then
                updNode ns source.id (fun n => { n with vx := n.vx + fx, vy := n.vy + fy })
              else ns
            if target.fx = none then
              updNode ns1 target.id (fun n => { n with vx := n.vx - fx, vy := n.vy - fy })
            else ns1
          | _, _ => ns)
        s.nodes
    { s with nodes := next }

/-- The coincident-pair jitter of `applyChargeForce`
(`if (!distSq) { dx = …random…; dy = …random…; distSq = … }`): returns
(dx, dy, next random counter). -/
def chargeJitter (randF : ℕ → ℚ) (dx0 dy0 : ℚ) (ctr : ℕ) : ℚ × ℚ × ℕ :=
  if dx0 * dx0 + dy0 * dy0 = 0 then
    ((randF ctr - 0.5) * 0.01, (randF (ctr + 1) - 0.5) * 0.01, ctr + 2)
  else (dx0, dy0, ctr)

/-- The inner `for (let j = i + 1; ...)` loop of `applyChargeForce`: the
running node `a` against each later node, in order, with the Math.random
counter threaded through the coincident-pair jitter. -/
def chargePairs (maxDist minDist k : ℚ) : SNode → List SNode → ℕ → SNode × List SNode × ℕ
  | a, [], ctr => (a, [], ctr)
  | a, b :: bs, ctr =>
    let j := chargeJitter randF (b.x - a.x) (b.y - a.y) ctr
    let dist := sqrtF (j.1 * j.1 + j.2.1 * j.2.1)
    if dist > maxDist then
      let r := chargePairs maxDist minDist k a bs j.2.2
      (r.1, b :: r.2.1, r.2.2)
    else
      let clamped := max minDist dist
      let force := k / (clamped * clamped)
      let nx := j.1 / clamped
      let ny := j.2.1 / clamped
      let a1 := if a.fx = none then { a with vx := a.vx - nx * force, vy := a.vy - ny * force } else a
      let b1 := if b.fx = none then { b with vx := b.vx + nx * force, vy := b.vy + ny * force } else b
      let r := chargePairs maxDist minDist k a1 bs j.2.2
      (r.1, b1 :: r.2.1, r.2.2)

/-- The outer `for (let i = 0; ...)` loop of `applyChargeForce`.  The
`fuel` argument only drives the recursion: `chargePairs` returns a list
of the same length as its input, so with `fuel` = the node count the
zero-fuel branch is unreachable. -/
def chargeLoop (maxDist minDist k : ℚ) : ℕ → List SNode → ℕ → List SNode × ℕ
  | 0, ns, ctr => (ns, ctr)
  | _ + 1, [], ctr => ([], ctr)
  | fuel + 1, a :: rest, ctr =>
    let r := chargePairs sqrtF randF maxDist minDist k a rest ctr
    let r2 := chargeLoop maxDist minDist k fuel r.2.1 r.2.2
    (r.1 :: r2.1, r2.2)

/-- `applyChargeForce(currentAlpha, dt)`. -/
def applyChargeForce (currentAlpha dt : ℚ) (s : SimState) : SimState :=
  if s.nodes.length < 2 || s.options.chargeStrength = 0 then s
  else
    let maxDist := max 1 s.options.maxChargeDistance
    let minDist := max 1 s.options.minDistance
    let k := s.options.chargeStrength * currentAlpha * dt
    { s with nodes := (chargeLoop sqrtF randF maxDist minDist k s.nodes.length s.nodes 0).1 }

/-- The inner pair loop of `applyCollisionForce` (positional correction). -/
def collidePairs (minDistance dt : ℚ) : SNode → List SNode → SNode × List SNode
  | a, [] => (a, [])
  | a, b :: bs =>
    let dx0 := b.x - a.x
    let dy := b.y - a.y
    let p := fixZeroDist (sqrtF (dx0 * dx0 + dy * dy)) dx0
    let overlap := minDistance - p.1
    if overlap ≤ 0 then
      let r := collidePairs minDistance dt a bs
      (r.1, b :: r.2)
    else
      let nx := p.2 / p.1
      let ny := dy / p.1
      let push := overlap * 0.5 * dt
      let a1 := if a.fx = none then { a with x := a.x - nx * push, y := a.y - ny * push } else a
      let b1 := if b.fx = none then { b with x := b.x + nx * push, y := b.y + ny * push } else b
      let r := collidePairs minDistance dt a1 bs
      (r.1, b1 :: r.2)

/-- The outer pair loop of `applyCollisionForce` (fuel as in
`chargeLoop`). -/
def collideLoop (minDistance dt : ℚ) : ℕ → List SNode → List SNode
  | 0, ns => ns
  | _ + 1, [] => []
  | fuel + 1, a :: rest =>
    let r := collidePairs sqrtF minDistance dt a rest
    r.1 :: collideLoop minDistance dt fuel r.2

/-- `applyCollisionForce(dt)`. -/
def applyCollisionForce (dt : ℚ) (s : SimState) : SimState :=
  if s.nodes.length < 2 || s.options.collisionRadius ≤ 0 then s
  else
    { s with nodes := collideLoop sqrtF (s.options.collisionRadius * 2) dt s.nodes.length s.nodes }

/-- `tick(dt)`: alpha relaxation, the four force passes in order, then
velocity decay and integration (pinned nodes snap to their pin and keep
zero velocity). -/
def tick (dt : ℚ) (s : SimState) : SimState :=
  if s.nodes.isEmpty then s
  else
    let s0 := { s with alpha := s.alpha + (s.options.alphaTarget - s.alpha) * s.options.alphaDecay }
    let s1 := applyCenterForce s0.alpha dt s0
    let s2 := applyLinkForce sqrtF s1.alpha dt s1
    let s3 := applyChargeForce sqrtF randF s2.alpha dt s2
    let s4 := applyCollisionForce sqrtF dt s3
    let velocityScale := max 0 (1 - s4.options.velocityDecay)
    { s4 with nodes := s4.nodes.map (fun n =>
        match n.fx, n.fy with
        | some fxv, some fyv => { n with x := fxv, y := fyv, vx := 0, vy := 0 }
        | _, _ =>
          let vx := n.vx * velocityScale
          let vy := n.vy * velocityScale
          { n with vx := vx, vy := vy, x := n.x + vx * dt, y := n.y + vy * dt }) }

/-- One iteration of the `pulseAmbient` loop: skip the anchor node and
pinned nodes, nudge the others, always advancing the index. -/
def pulseStep (anchorId : Nat) (phase : ℚ) (acc : List SNode × ℕ) (n : SNode) :
    List SNode × ℕ :=
  if n.id = anchorId then (acc.1 ++ [n], acc.2 + 1)
  else
    match n.fx, n.fy with
    | some _, some _ => (acc.1 ++ [n], acc.2 + 1)
    | _, _ =>
      let k := 0.3 * sinF (phase + 0.5 * (acc.2 : ℚ))
      (acc.1 ++ [{ n with vx := n.vx + 0.01 * k,
                          vy := n.vy + 0.01 * 0.3 * cosF (phase + 0.5 * (acc.2 : ℚ)) }],
       acc.2 + 1)

/-- `pulseAmbient(phase)`: sinusoidal velocity nudge for every node that
is neither the anchor nor pinned, phase-offset by node index.  (The
source's `options.anchorNodeId || 'streamline'` falsy fallback concerns
only the empty id string, which has no counterpart for opaque ids.) -/
def pulseAmbient (phase : ℚ) (s : SimState) : SimState :=
  { s with nodes := (s.nodes.foldl (pulseStep sinF cosF s.options.anchorNodeId phase) ([], 0)).1 }

/-- The engine operations that may be interleaved between ticks in the
pinning claim: everything except the pin family (`pinNode`,
`movePinnedNode`, `unpinNode`) and node registration. -/
inductive SimOp where
  | tick (dt : ℚ)
  | setOptions (p : OptPatch)
  | setAlpha (v : ℚ)
  | setAlphaTarget (t : ℚ)
  | reheat (t : ℚ)
  | setEdges (es : List (Nat × Nat))
  | pulseAmbient (phase : ℚ)
deriving DecidableEq, Repr

/-- Interpretation of one interleaved operation. -/
def applyOp : SimOp → SimState → SimState
  | .tick dt, s => tick sqrtF randF dt s
  | .setOptions p, s => setOptions p s
  | .setAlpha v, s => setAlpha v s
  | .setAlphaTarget t, s => setAlphaTarget t s
  | .reheat t, s => reheat t s
  | .setEdges es, s => setEdges es s
  | .pulseAmbient phase, s => pulseAmbient sinF cosF phase s

end Physics

/-- An interpretation of Math.sqrt for the concrete charge-force run
below: the only squared distance that run ever queries is 100, where the
real square root is 10 (the value elsewhere is irrelevant to the run). -/
def sqrtAt100 : ℚ → ℚ := fun q => if q = 100 then 10 else 0

/-- The pin contract for one node record: if this is the node with the
pinned id, its position sits exactly at the pin, its velocity is zero and
its pin override is set. -/
def pinnedAt (id : Nat) (px py : ℚ) (n : SNode) : Prop :=
  n.id = id → n.x = px ∧ n.y = py ∧ n.vx = 0 ∧ n.vy = 0 ∧ n.fx = some px ∧ n.fy = some py

end Force

namespace ForceJ

/-
A JavaScript number: a finite value (exact rational), NaN, or ±Infinity.
The rational-valued Force model cannot express the non-finite inputs that
the failure-semantics claim is about, so the state-mutating operations are
embedded a second time over this carrier; their control flow is identical
to the Force model with the `Number.isFinite` tests now live.
-/
inductive JSNum where
  | num (q : ℚ)
  | nan
  | inf
  | ninf
deriving DecidableEq, Repr

/-- `Number.isFinite`. -/
def JSNum.isFinite : JSNum → Bool
  | .num _ => true
  | _ => false

/-- `Math.max` (NaN-propagating). -/
def jsMax (a b : JSNum) : JSNum :=
  match a, b with
  | .nan, _ => .nan
  | _, .nan => .nan
  | .inf, _ => .inf
  | _, .inf => .inf
  | .ninf, b => b
  | a, .ninf => a
  | .num x, .num y => .num (max x y)

/-- A simulation node over JavaScript numbers. -/
structure JNode where
  id : Nat
  x : JSNum
  y : JSNum
  vx : JSNum := .num 0
  vy : JSNum := .num 0
  fx : Option JSNum := none
  fy : Option JSNum := none
  mass : JSNum := .num 1
deriving DecidableEq, Repr

/-- Options over JavaScript numbers. -/
structure JOptions where
  linkDistance : JSNum := .num 100
  linkStrength : JSNum := .num 0.08
  chargeStrength : JSNum := .num (-300)
  collisionRadius : JSNum := .num 45
  centerStrength : JSNum := .num 0.05
  centerX : JSNum := .num 0
  centerY : JSNum := .num 0
  anchorNodeId : Nat := 0
  alpha : JSNum := .num 0.3
  alphaMin : JSNum := .num 0.002
  alphaDecay : JSNum := .num 0.04
  alphaTarget : JSNum := .num 0
  velocityDecay : JSNum := .num 0.2
  maxChargeDistance : JSNum := .num 500
  minDistance : JSNum := .num 8
deriving DecidableEq, Repr

/-- A partial options record for `setOptions`. -/
structure JOptPatch where
  linkDistance : Option JSNum := none
  linkStrength : Option JSNum := none
  chargeStrength : Option JSNum := none
  collisionRadius : Option JSNum := none
  centerStrength : Option JSNum := none
  centerX : Option JSNum := none
  centerY : Option JSNum := none
  anchorNodeId : Option Nat := none
  alpha : Option JSNum := none
  alphaMin : Option JSNum := none
  alphaDecay : Option JSNum := none
  alphaTarget : Option JSNum := none
  velocityDecay : Option JSNum := none
  maxChargeDistance : Option JSNum := none
  minDistance : Option JSNum := none
deriving DecidableEq, Repr

/-- `{ ...options, ...nextOptions }`. -/
def mergeOptionsJ (o : JOptions) (p : JOptPatch) : JOptions where
  linkDistance := p.linkDistance.getD o.linkDistance
  linkStrength := p.linkStrength.getD o.linkStrength
  chargeStrength := p.chargeStrength.getD o.chargeStrength
  collisionRadius := p.collisionRadius.getD o.collisionRadius
  centerStrength := p.centerStrength.getD o.centerStrength
  centerX := p.centerX.getD o.centerX
  centerY := p.centerY.getD o.centerY
  anchorNodeId := p.anchorNodeId.getD o.anchorNodeId
  alpha := p.alpha.getD o.alpha
  alphaMin := p.alphaMin.getD o.alphaMin
  alphaDecay := p.alphaDecay.getD o.alphaDecay
  alphaTarget := p.alphaTarget.getD o.alphaTarget
  velocityDecay := p.velocityDecay.getD o.velocityDecay
  maxChargeDistance := p.maxChargeDistance.getD o.maxChargeDistance
  minDistance := p.minDistance.getD o.minDistance

/-- Engine state over JavaScript numbers. -/
structure JState where
  options : JOptions
  alpha : JSNum
  nodes : List JNode
  links : List (Nat × Nat)
deriving DecidableEq, Repr

/-- `nodes.get(id)`. -/
def getNodeJ : List JNode → Nat → Option JNode
  | [], _ => none
  | n :: rest, id => if n.id = id then some n else getNodeJ rest id

/-- Map.set semantics. -/
def upsertNodeJ (l : List JNode) (n : JNode) : List JNode :=
  match l with
  | [] => [n]
  | m :: rest => if m.id = n.id then n :: rest else m :: upsertNodeJ rest n

/-- In-place mutation of the node with the given id. -/
def updNodeJ (l : List JNode) (id : Nat) (f : JNode → JNode) : List JNode :=
  l.map (fun n => if n.id = id then f n else n)

/-- `setAlpha(nextAlpha)`: `alpha = Math.max(0, nextAlpha)` — no
finiteness guard, so NaN and Infinity pass through into `alpha`. -/
def setAlphaJ (v : JSNum) (s : JState) : JState :=
  { s with alpha := jsMax (.num 0) v }

/-- `reheat(nextAlphaTarget)` (alpha/options part). -/
def reheatJ (t : JSNum) (s : JState) : JState :=
  { s with alpha := jsMax s.alpha t,
           options := { s.options with alphaTarget := jsMax s.options.alphaTarget t } }

/-- `setAlphaTarget(t)`. -/
def setAlphaTargetJ (t : JSNum) (s : JState) : JState :=
  { s with options := { s.options with alphaTarget := jsMax (.num 0) t } }

/-- `setOptions(nextOptions)`. -/
def setOptionsJ (p : JOptPatch) (s : JState) : JState :=
  let options := mergeOptionsJ s.options p
  match p.alpha with
  | some a => { s with options := options, alpha := a }
  | none => { s with options := options }

/-- `pinNode(id, x, y)`: unknown id is a no-op; each non-finite
coordinate is ignored for the position and replaced by the node's current
coordinate for the pin. -/
def pinNodeJ (id : Nat) (x y : JSNum) (s : JState) : JState :=
  let f : JNode → JNode := fun n =>
    let n1 := if x.isFinite then { n with x := x } else n
    let n2 := if y.isFinite then { n1 with y := y } else n1
    { n2 with fx := some (if x.isFinite then x else n2.x),
              fy := some (if y.isFinite then y else n2.y),
              vx := .num 0, vy := .num 0 }
  { s with nodes := updNodeJ s.nodes id f }

/-- `movePinnedNode(id, x, y)`: unknown id or any non-finite coordinate
is a no-op. -/
def movePinnedNodeJ (id : Nat) (x y : JSNum) (s : JState) : JState :=
  if x.isFinite && y.isFinite then
    let f : JNode → JNode := fun n =>
      { n with x := x, y := y, fx := some x, fy := some y, vx := .num 0, vy := .num 0 }
    { s with nodes := updNodeJ s.nodes id f }
  else s

/-- `unpinNode(id)`. -/
def unpinNodeJ (id : Nat) (s : JState) : JState :=
  { s with nodes := updNodeJ s.nodes id (fun n => { n with fx := none, fy := none }) }

/-- Input node record for `setNodes`. -/
structure JNodeSpec where
  id : Nat
  position : Option (JSNum × JSNum) := none
deriving DecidableEq, Repr

/-- `Number.isFinite(node.position?.x) ? node.position.x : 0`. -/
def seedFrom (sup : Option JSNum) : JSNum :=
  match sup with
  | some w => if w.isFinite then w else .num 0
  | none => .num 0

/-- `Number.isFinite(existing?.x) ? existing.x : (…supplied or 0…)`. -/
def seedCoord (ex sup : Option JSNum) : JSNum :=
  match ex with
  | some v => if v.isFinite then v else seedFrom sup
  | none => seedFrom sup

/-- The node record built by one `setNodes` loop iteration: position
seeded from the existing node when finite, else from the supplied
position, else (0, 0); velocity and pin fields carried over from the
existing node (`?? 0` / `?? null`); mass reset to 1. -/
def buildJ (s : JState) (nd : JNodeSpec) : JNode :=
  let existing := getNodeJ s.nodes nd.id
  { id := nd.id,
    x := seedCoord (existing.map (·.x)) ((nd.position).map (·.1)),
    y := seedCoord (existing.map (·.y)) ((nd.position).map (·.2)),
    vx := (existing.map (·.vx)).getD (.num 0),
    vy := (existing.map (·.vy)).getD (.num 0),
    fx := (existing.map (·.fx)).getD none,
    fy := (existing.map (·.fy)).getD none,
    mass := .num 1 }

/-- `setNodes(nodeList)` over JavaScript numbers: rebuild the node map
from scratch (`const next = new Map()`), reading the previous state. -/
def setNodesJ (list : List JNodeSpec) (s : JState) : JState :=
  { s with nodes := list.foldl (fun acc nd => upsertNodeJ acc (buildJ s nd)) [] }

/-- Every numeric field of a node is finite (the pin fields whenever
present). -/
def JNode.finiteOK (n : JNode) : Bool :=
  n.x.isFinite && n.y.isFinite && n.vx.isFinite && n.vy.isFinite &&
  (match n.fx with | some v => v.isFinite | none => true) &&
  (match n.fy with | some v => v.isFinite | none => true)

end ForceJ

/-! ## Helper lemmas -/

theorem alookup_upsert {α : Type} (m : List (Nat × α)) (k : Nat) (v : α) (j : Nat) :
    alookup (upsert m k v) j = if j = k then some v else alookup m j := by
  induction m with
  | nil => by_cases h : j = k <;> simp [upsert, alookup, h, Ne.symm]
  | cons hd t ih =>
    by_cases hk : hd.1 = k
    · by_cases hj : j = k <;> simp [upsert, alookup, hk, hj, Ne.symm]
    · by_cases hj : hd.1 = j
      · have hjk : j ≠ k := fun h => hk (hj.trans h)
        simp [upsert, alookup, hk, hj, hjk]
      · simp [upsert, alookup, hk, hj, ih]

namespace Layout

theorem length_filter_le_of_imp (l : List Nat) (p q : Nat → Bool)
    (h : ∀ a, q a = true → p a = true) :
    (l.filter q).length ≤ (l.filter p).length := by
  induction l with
  | nil => simp
  | cons a t ih =>
    by_cases hq : q a = true
    · simp [List.filter, hq, h a hq]; omega
    · by_cases hp : p a = true <;>
        simp [List.filter, hq, hp, Bool.eq_false_iff.mpr] <;> omega

theorem length_filter_lt_of_imp (l : List Nat) (p q : Nat → Bool)
    (h : ∀ a, q a = true → p a = true) (a : Nat) (ha : a ∈ l)
    (hpa : p a = true) (hqa : q a = false) :
    (l.filter q).length < (l.filter p).length := by
  induction l with
  | nil => cases ha
  | cons b t ih =>
    rcases List.mem_cons.mp ha with hb | hmem
    · subst hb
      have hle := length_filter_le_of_imp t p q h
      simp [List.filter, hpa, hqa]; omega
    · have hlt := ih hmem
      by_cases hq : q b = true
      · simp [List.filter, hq, h b hq]; omega
      · by_cases hp : p b = true <;> simp [List.filter, hq, hp] <;> omega

theorem unvisited_le_length (U : List Nat) (s : RState) : unvisited U s ≤ U.length :=
  List.length_filter_le _ _

theorem unvisited_congr (U : List Nat) {s t : RState} (h : s.visited = t.visited) :
    unvisited U s = unvisited U t := by
  simp [unvisited, h]

theorem unvisited_mono (U : List Nat) {s t : RState} (h : s.visited ⊆ t.visited) :
    unvisited U t ≤ unvisited U s := by
  apply length_filter_le_of_imp
  intro a ha
  simp only [decide_eq_true_eq] at ha ⊢
  exact fun hmem => ha (h hmem)

theorem kidBump_visited (p c d : Nat) (s : RState) : (kidBump p c d s).visited = s.visited := by
  unfold kidBump
  by_cases h : c ∈ s.inStack <;> simp only [h, if_true, if_false, ite_true, ite_false] <;>
    split <;> rfl

theorem markNode_visited (id depth : Nat) (s : RState) :
    (markNode id depth s).visited = s.visited ++ [id] := rfl

theorem runKids_visited_mono (step : Nat → RState → Option RState) (parent : Nat)
    (hstep : ∀ c u t, step c u = some t → u.visited ⊆ t.visited) :
    ∀ (cs : List Nat) (d : Nat) (s t : RState),
      runKids step parent cs d s = some t → s.visited ⊆ t.visited := by
  intro cs
  induction cs with
  | nil =>
    intro d s t h
    simp only [runKids, Option.some.injEq] at h
    subst h; exact fun a ha => ha
  | cons c cs ih =>
    intro d s t h
    simp only [runKids] at h
    cases hst : step c (kidBump parent c d s) with
    | none => rw [hst] at h; cases h
    | some s2 =>
      rw [hst] at h
      have h1 := hstep _ _ _ hst
      rw [kidBump_visited] at h1
      exact fun a ha => ih d s2 t h (h1 ha)

theorem dfs_visited_mono (g : Graph) :
    ∀ (fuel id depth : Nat) (s t : RState),
      dfs g fuel id depth s = some t → s.visited ⊆ t.visited := by
  intro fuel
  induction fuel with
  | zero => intro id depth s t h; cases h
  | succ fuel ih =>
    intro id depth s t h
    simp only [dfs] at h
    by_cases h1 : id ∈ s.inStack
    · rw [if_pos h1] at h; cases h; exact fun a ha => ha
    · rw [if_neg h1] at h
      by_cases h2 : id ∈ s.visited
      · rw [if_pos h2] at h; cases h; exact fun a ha => ha
      · rw [if_neg h2] at h
        cases hrk : runKids (fun c s' => dfs g fuel c (depth+1) s') id (adjGet g id) (depth+1)
            (markNode id depth s) with
        | none => rw [hrk] at h; cases h
        | some s2 =>
          rw [hrk] at h
          cases h
          have hmono := runKids_visited_mono _ id (fun c u t h => ih c (depth+1) u t h)
            _ _ _ _ hrk
          rw [markNode_visited] at hmono
          exact fun a ha => hmono (List.mem_append_left _ ha)

theorem runKids_isSome (U : List Nat) (F : Nat) (step : Nat → RState → Option RState)
    (parent : Nat)
    (hmono : ∀ c u t, step c u = some t → u.visited ⊆ t.visited)
    (hsome : ∀ c u, c ∈ U → unvisited U u < F → (step c u).isSome) :
    ∀ (cs : List Nat) (d : Nat) (s : RState), (∀ c ∈ cs, c ∈ U) → unvisited U s < F →
      (runKids step parent cs d s).isSome := by
  intro cs
  induction cs with
  | nil => intro d s _ _; simp [runKids]
  | cons c cs ih =>
    intro d s hcs hm
    have hc : c ∈ U := hcs c (List.mem_cons_self c cs)
    have hm0 : unvisited U (kidBump parent c d s) < F := by
      rw [unvisited_congr U (kidBump_visited parent c d s)]; exact hm
    have hs := hsome c (kidBump parent c d s) hc hm0
    simp only [runKids]
    cases hst : step c (kidBump parent c d s) with
    | none => rw [hst] at hs; cases hs
    | some s2 =>
      have hsub : s.visited ⊆ s2.visited := by
        have := hmono _ _ _ hst
        rw [kidBump_visited] at this
        exact this
      exact ih d s2 (fun x hx => hcs x (List.mem_cons_of_mem c hx))
        (lt_of_le_of_lt (unvisited_mono U hsub) hm)

theorem dfs_isSome (g : Graph) (U : List Nat) (hg : ∀ id c, c ∈ adjGet g id → c ∈ U) :
    ∀ (fuel id depth : Nat) (s : RState), id ∈ U → unvisited U s < fuel →
      (dfs g fuel id depth s).isSome := by
  intro fuel
  induction fuel with
  | zero => intro id depth s _ hm; exact absurd hm (Nat.not_lt_zero _)
  | succ fuel ih =>
    intro id depth s hid hm
    simp only [dfs]
    by_cases h1 : id ∈ s.inStack
    · simp [h1]
    · by_cases h2 : id ∈ s.visited
      · simp [h1, h2]
      · rw [if_neg h1, if_neg h2]
        have hm1 : unvisited U (markNode id depth s) < fuel := by
          have himp : ∀ a, decide (a ∉ (markNode id depth s).visited) = true →
              decide (a ∉ s.visited) = true := by
            intro a ha
            simp only [markNode_visited, List.mem_append, List.mem_singleton,
              decide_eq_true_eq] at ha ⊢
            exact fun hmem => ha (Or.inl hmem)
          have hpa : decide (id ∉ s.visited) = true := by simp [h2]
          have hqa : decide (id ∉ (markNode id depth s).visited) = false := by
            simp [markNode_visited]
          have hstrict := length_filter_lt_of_imp U _ _ himp id hid hpa hqa
          have hlt : unvisited U (markNode id depth s) < unvisited U s := hstrict
          omega
        have hrk := runKids_isSome U fuel (fun c s' => dfs g fuel c (depth+1) s') id
          (fun c u t h => dfs_visited_mono g fuel c (depth+1) u t h)
          (fun c u hc hmu => ih c (depth+1) u hc hmu)
          (adjGet g id) (depth+1) (markNode id depth s) (fun c hc => hg id c hc) hm1
        split
        · next heq => rw [heq] at hrk; cases hrk
        · next s2 heq => rfl

theorem foldDfs_isSome (adj : Graph) (U : List Nat) (fuel : Nat)
    (hg : ∀ id c, c ∈ adjGet adj id → c ∈ U)
    (hfuel : ∀ s : RState, unvisited U s < fuel) :
    ∀ (l : List LNode) (s : RState), (∀ r ∈ l, r.id ∈ U) →
      (l.foldlM (fun s (r : LNode) => dfs adj fuel r.id 0 s) s).isSome := by
  intro l
  induction l with
  | nil => intro s _; simp
  | cons r t ih =>
    intro s hl
    simp only [List.foldlM_cons]
    have hs := dfs_isSome adj U hg fuel r.id 0 s (hl r (List.mem_cons_self r t)) (hfuel s)
    cases hd : dfs adj fuel r.id 0 s with
    | none => rw [hd] at hs; cases hs
    | some s2 => exact ih s2 (fun x hx => hl x (List.mem_cons_of_mem r hx))

theorem sweepDfs_isSome (adj : Graph) (U : List Nat) (fuel : Nat)
    (hg : ∀ id c, c ∈ adjGet adj id → c ∈ U)
    (hfuel : ∀ s : RState, unvisited U s < fuel) :
    ∀ (l : List LNode) (s : RState), (∀ r ∈ l, r.id ∈ U) →
      (l.foldlM (fun s (n : LNode) => if n.id ∈ s.visited then some s else dfs adj fuel n.id 0 s)
        s).isSome := by
  intro l
  induction l with
  | nil => intro s _; simp
  | cons r t ih =>
    intro s hl
    simp only [List.foldlM_cons]
    by_cases hv : r.id ∈ s.visited
    · rw [if_pos hv]
      exact ih s (fun x hx => hl x (List.mem_cons_of_mem r hx))
    · rw [if_neg hv]
      have hs := dfs_isSome adj U hg fuel r.id 0 s (hl r (List.mem_cons_self r t)) (hfuel s)
      cases hd : dfs adj fuel r.id 0 s with
      | none => rw [hd] at hs; cases hs
      | some s2 => exact ih s2 (fun x hx => hl x (List.mem_cons_of_mem r hx))

theorem bind_isSome_of_isSome {α β : Type} (o : Option α) (f : α → Option β)
    (h1 : o.isSome) (h2 : ∀ a, o = some a → (f a).isSome) : (o.bind f).isSome := by
  cases ho : o with
  | none => rw [ho] at h1; cases h1
  | some a => simpa using h2 a ho

theorem assignRanks_isSome (nodes : List LNode) (adj inAdj : Graph)
    (hg : ∀ id c, c ∈ adjGet adj id → c ∈ nodes.map (·.id)) :
    (assignRanks nodes adj inAdj).isSome := by
  have hfuel : ∀ s : RState, unvisited (nodes.map (·.id)) s < nodes.length + 1 := by
    intro s
    have := unvisited_le_length (nodes.map (·.id)) s
    simp only [List.length_map] at this
    omega
  have hroots : ∀ r : LNode, r ∈ nodes.filter (fun n => (adjGet inAdj n.id).length == 0) →
      r.id ∈ nodes.map (·.id) := by
    intro r hr
    exact List.mem_map_of_mem _ (List.mem_of_mem_filter hr)
  unfold assignRanks
  apply bind_isSome_of_isSome
  · by_cases hre : (nodes.filter (fun n => (adjGet inAdj n.id).length == 0)).isEmpty
    · rw [if_pos hre]
      cases nodes with
      | nil => rfl
      | cons n t =>
        exact dfs_isSome adj ((n :: t).map (·.id)) hg ((n :: t).length + 1) n.id 0 {}
          (List.mem_map_of_mem _ (List.mem_cons_self n t)) (hfuel {})
    · rw [if_neg hre]; rfl
  · intro s1 _
    apply bind_isSome_of_isSome
    · exact foldDfs_isSome adj (nodes.map (·.id)) (nodes.length + 1) hg hfuel
        (nodes.filter (fun n => (adjGet inAdj n.id).length == 0)) s1 hroots
    · intro s2 _
      exact sweepDfs_isSome adj (nodes.map (·.id)) (nodes.length + 1) hg hfuel nodes s2
        (fun r hr => List.mem_map_of_mem _ hr)

theorem adjGet_setAdd (g : Graph) (k v id : Nat) :
    adjGet (setAdd g k v) id =
      if id = k then (if v ∈ adjGet g k then adjGet g k else adjGet g k ++ [v])
      else adjGet g id := by
  unfold setAdd adjGet
  rw [alookup_upsert]
  split <;> rfl

theorem initAdj_empty : ∀ (nodes : List LNode) (g : Graph), (∀ id, adjGet g id = []) →
    ∀ id, adjGet (nodes.foldl (fun g n => upsert g n.id []) g) id = [] := by
  intro nodes
  induction nodes with
  | nil => intro g h id; exact h id
  | cons n t ih =>
    intro g h id
    simp only [List.foldl_cons]
    apply ih
    intro j
    unfold adjGet
    rw [alookup_upsert]
    split
    · rfl
    · exact h j

theorem buildAdjFold_closed (ids : List Nat) :
    ∀ (es : List (Nat × Nat)) (gg : Graph × Graph),
      (∀ id c, c ∈ adjGet gg.1 id → c ∈ ids) →
      ∀ id c,
        c ∈ adjGet (es.foldl
          (fun gg e =>
            if e.1 ∈ ids ∧ e.2 ∈ ids then (setAdd gg.1 e.1 e.2, setAdd gg.2 e.2 e.1) else gg)
          gg).1 id →
        c ∈ ids := by
  intro es
  induction es with
  | nil => intro gg h; exact h
  | cons e t ih =>
    intro gg h
    simp only [List.foldl_cons]
    apply ih
    by_cases he : e.1 ∈ ids ∧ e.2 ∈ ids
    · rw [if_pos he]
      intro id c hc
      rw [adjGet_setAdd] at hc
      split at hc
      · split at hc
        · exact h _ _ hc
        · rcases List.mem_append.mp hc with h1 | h2
          · exact h _ _ h1
          · rw [List.mem_singleton] at h2; subst h2; exact he.2
      · exact h _ _ hc
    · rw [if_neg he]; exact h

theorem buildAdj_closed (nodes : List LNode) (edges : List (Nat × Nat)) :
    ∀ id c, c ∈ adjGet (buildAdj nodes edges).1 id → c ∈ nodes.map (·.id) := by
  unfold buildAdj
  apply buildAdjFold_closed
  intro id c hc
  rw [initAdj_empty nodes [] (fun _ => rfl) id] at hc
  cases hc

theorem layoutNodes_isSome (nodes : List LNode) (edges : List (Nat × Nat)) (opts : LOpts) :
    (layoutNodes nodes edges opts).isSome := by
  unfold layoutNodes
  by_cases h1 : nodes.isEmpty
  · simp [h1]
  · simp only [h1, Bool.false_eq_true, if_false]
    by_cases h2 : (needsLayoutIds nodes).isEmpty
    · simp [h2]
    · simp only [h2, Bool.false_eq_true, if_false]
      have := assignRanks_isSome nodes (buildAdj nodes edges).1 (buildAdj nodes edges).2
        (buildAdj_closed nodes edges)
      cases hr : assignRanks nodes (buildAdj nodes edges).1 (buildAdj nodes edges).2 with
      | none => rw [hr] at this; cases this
      | some rs => rfl

theorem mem_needsLayoutFold (l : List LNode) :
    ∀ (acc : List Nat) (a : Nat),
      a ∈ l.foldl (fun acc n => if hasExplicitPosition n then acc
        else if n.id ∈ acc then acc else acc ++ [n.id]) acc →
      a ∈ acc ∨ ∃ n, n ∈ l ∧ n.id = a ∧ hasExplicitPosition n = false := by
  induction l with
  | nil => intro acc a h; exact Or.inl h
  | cons n t ih =>
    intro acc a h
    simp only [List.foldl_cons] at h
    by_cases hex : hasExplicitPosition n
    · rw [if_pos hex] at h
      rcases ih acc a h with h1 | ⟨m, hm, hid, hexp⟩
      · exact Or.inl h1
      · exact Or.inr ⟨m, List.mem_cons_of_mem n hm, hid, hexp⟩
    · rw [if_neg hex] at h
      by_cases hin : n.id ∈ acc
      · rw [if_pos hin] at h
        rcases ih acc a h with h1 | ⟨m, hm, hid, hexp⟩
        · exact Or.inl h1
        · exact Or.inr ⟨m, List.mem_cons_of_mem n hm, hid, hexp⟩
      · rw [if_neg hin] at h
        rcases ih (acc ++ [n.id]) a h with h1 | ⟨m, hm, hid, hexp⟩
        · rcases List.mem_append.mp h1 with h2 | h2
          · exact Or.inl h2
          · rw [List.mem_singleton] at h2
            exact Or.inr ⟨n, List.mem_cons_self n t, h2.symm,
              Bool.eq_false_iff.mpr hex⟩
        · exact Or.inr ⟨m, List.mem_cons_of_mem n hm, hid, hexp⟩

theorem mem_needsLayoutIds {nodes : List LNode} {a : Nat} (h : a ∈ needsLayoutIds nodes) :
    ∃ n, n ∈ nodes ∧ n.id = a ∧ hasExplicitPosition n = false := by
  rcases mem_needsLayoutFold nodes [] a h with h1 | h2
  · cases h1
  · exact h2

theorem eq_of_mem_of_id_eq {nodes : List LNode} (hnd : (nodes.map (·.id)).Nodup) :
    ∀ n, n ∈ nodes → ∀ m, m ∈ nodes → n.id = m.id → n = m := by
  induction nodes with
  | nil => intro n hn; cases hn
  | cons a t ih =>
    simp only [List.map_cons, List.nodup_cons] at hnd
    obtain ⟨hna, hnd2⟩ := hnd
    intro n hn m hm heq
    rcases List.mem_cons.mp hn with rfl | hn2 <;> rcases List.mem_cons.mp hm with rfl | hm2
    · rfl
    · exact absurd (heq ▸ List.mem_map_of_mem (·.id) hm2) hna
    · exact absurd (heq ▸ List.mem_map_of_mem (·.id) hn2) hna
    · exact ih hnd2 n hn2 m hm2 heq

theorem flagFalse_not_needs {nodes : List LNode} (hnd : (nodes.map (·.id)).Nodup)
    {n : LNode} (hn : n ∈ nodes) (hf : n.needsLayoutFlag = some false) :
    n.id ∉ needsLayoutIds nodes := by
  intro hmem
  obtain ⟨m, hm, hid, hex⟩ := mem_needsLayoutIds hmem
  have hmn : m = n := eq_of_mem_of_id_eq hnd m hm n hn hid
  subst hmn
  simp [hasExplicitPosition, hf] at hex

/-! ## Claim theorems about the Layered Layout Engine -/

/-- C6: for every input with unique node ids, `layoutNodes` returns a list
of the same length whose i-th node has the i-th input id, and every node
whose `_needsLayout` flag is `false` (a fixed node) reappears in the
output completely unmodified, regardless of the edge set. -/
theorem layoutNodes_preserves_fixed_nodes
    (nodes : List LNode) (edges : List (Nat × Nat)) (opts : LOpts) (out : List LNode)
    (hnd : (nodes.map (·.id)).Nodup)
    (hout : layoutNodes nodes edges opts = some out) :
    out.length = nodes.length ∧
    ∀ i, (hi : i < nodes.length) →
      ∃ nOut, out[i]? = some nOut ∧ nOut.id = nodes[i].id ∧
        (nodes[i].needsLayoutFlag = some false → nOut = nodes[i]) := by
  unfold layoutNodes at hout
  by_cases h1 : nodes.isEmpty
  · rw [if_pos h1] at hout
    cases hout
    exact ⟨rfl, fun i hi => ⟨nodes[i], List.getElem?_eq_getElem hi, rfl, fun _ => rfl⟩⟩
  · simp only [h1, Bool.false_eq_true, if_false] at hout
    by_cases h2 : (needsLayoutIds nodes).isEmpty
    · rw [if_pos h2] at hout
      cases hout
      exact ⟨rfl, fun i hi => ⟨nodes[i], List.getElem?_eq_getElem hi, rfl, fun _ => rfl⟩⟩
    · simp only [h2, Bool.false_eq_true, if_false] at hout
      cases har : assignRanks nodes (buildAdj nodes edges).1 (buildAdj nodes edges).2 with
      | none => rw [har] at hout; cases hout
      | some rs =>
        rw [har] at hout
        have hout2 := (Option.some.inj hout).symm
        subst hout2
        refine ⟨by simp, fun i hi => ?_⟩
        rw [List.getElem?_map, List.getElem?_eq_getElem hi]
        refine ⟨_, rfl, ?_, ?_⟩
        · dsimp only
          by_cases hmem : nodes[i].id ∈ needsLayoutIds nodes
          · rw [if_pos hmem]
            split <;> rfl
          · rw [if_neg hmem]
        · intro hflag
          dsimp only
          rw [if_neg (flagFalse_not_needs hnd (List.getElem_mem hi) hflag)]

/-- C6 witness: a single fixed node (flag `false`) with a dangling edge is
returned unmodified. -/
theorem layoutNodes_preserves_fixed_nodes_witness :
    ([({ id := 5, needsLayoutFlag := some false } : LNode)].map (·.id)).Nodup ∧
    ([({ id := 5, needsLayoutFlag := some false } : LNode)].length = 1 ∧
     ∀ i, (hi : i < [({ id := 5, needsLayoutFlag := some false } : LNode)].length) →
      ∃ nOut, [({ id := 5, needsLayoutFlag := some false } : LNode)][i]? = some nOut ∧
        nOut.id = [({ id := 5, needsLayoutFlag := some false } : LNode)][i].id ∧
        ([({ id := 5, needsLayoutFlag := some false } : LNode)][i].needsLayoutFlag = some false →
          nOut = [({ id := 5, needsLayoutFlag := some false } : LNode)][i])) :=
  ⟨by decide,
   layoutNodes_preserves_fixed_nodes
     [{ id := 5, needsLayoutFlag := some false }] [(5, 9)] LAYOUT_DEFAULTS
     [{ id := 5, needsLayoutFlag := some false }] (by decide) rfl⟩

/-- C8: `layoutNodes` returns a result on every input (the rank DFS never
exhausts its recursion budget), cyclic and disconnected graphs included;
on the cycle 0→1→2→0 it returns, and the cycle edge 0→1 has rank delta
(target rank − source rank) ≤ 0 — the computed ranks are 0↦3, 1↦1, 2↦2,
and the run records 2→0 as the skipped back edge. -/
theorem layoutNodes_total_and_cycle_back_edge :
    (∀ (nodes : List LNode) (edges : List (Nat × Nat)) (opts : LOpts),
      (layoutNodes nodes edges opts).isSome) ∧
    (layoutNodes [{id := 0}, {id := 1}, {id := 2}] [(0, 1), (1, 2), (2, 0)]
      LAYOUT_DEFAULTS).isSome ∧
    assignRanks [{id := 0}, {id := 1}, {id := 2}]
        (buildAdj [{id := 0}, {id := 1}, {id := 2}] [(0, 1), (1, 2), (2, 0)]).1
        (buildAdj [{id := 0}, {id := 1}, {id := 2}] [(0, 1), (1, 2), (2, 0)]).2
      = some { ranks := [(0, 3), (1, 1), (2, 2)], visited := [0, 1, 2], inStack := [],
               back := [(2, 0)] } ∧
    (0, 1) ∈ [(0, 1), (1, 2), (2, 0)] ∧
    rankGetD [(0, 3), (1, 1), (2, 2)] 1 ≤ rankGetD [(0, 3), (1, 1), (2, 2)] 0 :=
  ⟨layoutNodes_isSome, layoutNodes_isSome _ _ _, by decide, by decide, by decide⟩

/-- C3 (code bug): on the acyclic diamond 0→2, 2→3, 0→1, 1→2 the DFS run
records no back edge at all, yet node 3 ends with rank 2 while its only
predecessor 2 also has rank 2: the rank of 3 is not `max` over incoming
non-back edges of predecessor rank + 1 (the bump of 2's rank via 1→2 is
never propagated to 3), contradicting the claimed invariant and the
code's own longest-path comment. -/
theorem assignRanks_rank_propagation_bug :
    assignRanks [{id := 0}, {id := 1}, {id := 2}, {id := 3}]
        (buildAdj [{id := 0}, {id := 1}, {id := 2}, {id := 3}]
          [(0, 2), (2, 3), (0, 1), (1, 2)]).1
        (buildAdj [{id := 0}, {id := 1}, {id := 2}, {id := 3}]
          [(0, 2), (2, 3), (0, 1), (1, 2)]).2
      = some { ranks := [(0, 0), (2, 2), (3, 2), (1, 1)], visited := [0, 2, 3, 1],
               inStack := [], back := [] } ∧
    (2, 3) ∈ [(0, 2), (2, 3), (0, 1), (1, 2)] ∧
    rankGetD [(0, 0), (2, 2), (3, 2), (1, 1)] 3 <
      rankGetD [(0, 0), (2, 2), (3, 2), (1, 1)] 2 + 1 :=
  ⟨by decide, by decide, by decide⟩

/-- C4 (counterexample): two nodes whose `_needsLayout` flags are equal
(both absent) are partitioned differently by `layoutNodes` purely because
one carries a `position` field: the positionless one is assigned computed
coordinates, the positioned one is returned untouched. -/
theorem layout_partition_uses_position_presence_cex :
    layoutNodes [{id := 5}] [] LAYOUT_DEFAULTS
      = some [{id := 5, position := some (0, 0)}] ∧
    layoutNodes [{id := 5, position := some (7, 8)}] [] LAYOUT_DEFAULTS
      = some [{id := 5, position := some (7, 8)}] ∧
    ({id := 5} : LNode).needsLayoutFlag
      = ({id := 5, position := some (7, 8)} : LNode).needsLayoutFlag ∧
    hasExplicitPosition {id := 5} = false ∧
    hasExplicitPosition {id := 5, position := some (7, 8)} = true := by
  refine ⟨?_, ?_, rfl, rfl, rfl⟩
  · have har : assignRanks [{id := 5}] [(5, [])] [(5, [])]
        = some { ranks := [(5, 0)], visited := [5], inStack := [], back := [] } := by decide
    norm_num [layoutNodes, har, LAYOUT_DEFAULTS, LDir.isHorizontal, LDir.isReversed, buildAdj,
      adjGet, setAdd, alookup, upsert, rankGetD,
      hasExplicitPosition, needsLayoutIds, mkNodeMap, barycenterOrdering, barycenterIter,
      chainPass, orderLayerByBarycenter, stableSortByKey, insertStable, keyLt, baryKey,
      refPositionsOf, assignCoordinates, getNodeSize, getNodeDim, getMaxRankSize, jsOrQ,
      normalizePositions, List.range, List.range.loop]
  · norm_num [layoutNodes, hasExplicitPosition, needsLayoutIds]

/-- C4 (amended): membership in the need-layout partition is a function
of the `_needsLayout` flag whenever the flag is present (`true` → needs
layout, `false` → fixed); only when the flag is absent does the code fall
back to the presence of the `position` field. -/
theorem needsLayout_partition_rule (n : LNode) :
    hasExplicitPosition n =
      (match n.needsLayoutFlag with
       | some b => !b
       | none => n.position.isSome) := by
  cases h : n.needsLayoutFlag with
  | none => simp [hasExplicitPosition, h]
  | some b => cases b <;> simp [hasExplicitPosition, h]

set_option maxHeartbeats 4000000 in
/-- C9: the chain 0→1→2→3 of need-layout nodes under TB with default
sizes gets ranks 0,1,2,3 and y coordinates 0, 136, 272, 408: successive
y deltas are exactly `nodeHeight + rankSpacing`. -/
theorem chain_TB_ranks_and_spacing :
    assignRanks
        [{id := 0, needsLayoutFlag := some true}, {id := 1, needsLayoutFlag := some true},
         {id := 2, needsLayoutFlag := some true}, {id := 3, needsLayoutFlag := some true}]
        (buildAdj
          [{id := 0, needsLayoutFlag := some true}, {id := 1, needsLayoutFlag := some true},
           {id := 2, needsLayoutFlag := some true}, {id := 3, needsLayoutFlag := some true}]
          [(0, 1), (1, 2), (2, 3)]).1
        (buildAdj
          [{id := 0, needsLayoutFlag := some true}, {id := 1, needsLayoutFlag := some true},
           {id := 2, needsLayoutFlag := some true}, {id := 3, needsLayoutFlag := some true}]
          [(0, 1), (1, 2), (2, 3)]).2
      = some { ranks := [(0, 0), (1, 1), (2, 2), (3, 3)], visited := [0, 1, 2, 3],
               inStack := [], back := [] } ∧
    layoutNodes
        [{id := 0, needsLayoutFlag := some true}, {id := 1, needsLayoutFlag := some true},
         {id := 2, needsLayoutFlag := some true}, {id := 3, needsLayoutFlag := some true}]
        [(0, 1), (1, 2), (2, 3)] LAYOUT_DEFAULTS
      = some
        [{id := 0, needsLayoutFlag := some true, position := some (0, 0)},
         {id := 1, needsLayoutFlag := some true, position := some (0, 136)},
         {id := 2, needsLayoutFlag := some true, position := some (0, 272)},
         {id := 3, needsLayoutFlag := some true, position := some (0, 408)}] ∧
    (136 : ℚ) - 0 = LAYOUT_DEFAULTS.nodeHeight + LAYOUT_DEFAULTS.rankSpacing ∧
    (272 : ℚ) - 136 = LAYOUT_DEFAULTS.nodeHeight + LAYOUT_DEFAULTS.rankSpacing ∧
    (408 : ℚ) - 272 = LAYOUT_DEFAULTS.nodeHeight + LAYOUT_DEFAULTS.rankSpacing := by
  refine ⟨by decide, ?_, by norm_num [LAYOUT_DEFAULTS], by norm_num [LAYOUT_DEFAULTS],
    by norm_num [LAYOUT_DEFAULTS]⟩
  have har : assignRanks
        [{id := 0, needsLayoutFlag := some true}, {id := 1, needsLayoutFlag := some true},
         {id := 2, needsLayoutFlag := some true}, {id := 3, needsLayoutFlag := some true}]
        [(0, [1]), (1, [2]), (2, [3]), (3, [])] [(0, []), (1, [0]), (2, [1]), (3, [2])]
      = some { ranks := [(0, 0), (1, 1), (2, 2), (3, 3)], visited := [0, 1, 2, 3],
               inStack := [], back := [] } := by decide
  norm_num [layoutNodes, har, LAYOUT_DEFAULTS, LDir.isHorizontal, LDir.isReversed, buildAdj,
    adjGet, setAdd, alookup, upsert, rankGetD,
    hasExplicitPosition, needsLayoutIds, mkNodeMap, barycenterOrdering, barycenterIter,
    chainPass, orderLayerByBarycenter, stableSortByKey, insertStable, keyLt, baryKey,
    refPositionsOf, assignCoordinates, getNodeSize, getNodeDim, getMaxRankSize, jsOrQ,
    normalizePositions, List.range, List.range.loop]


end Layout

namespace Force

/-! ## Helper lemmas about the Force Simulation Engine -/

theorem map_self {α : Type} (l : List α) (f : α → α) (h : ∀ a ∈ l, f a = a) : l.map f = l := by
  induction l with
  | nil => rfl
  | cons a t ih =>
    simp only [List.map_cons, h a (List.mem_cons_self a t),
      ih (fun x hx => h x (List.mem_cons_of_mem a hx))]

theorem foldl_self {α β : Type} (step : α → β → α) (h : ∀ acc b, step acc b = acc) :
    ∀ (l : List β) (init : α), l.foldl step init = init := by
  intro l
  induction l with
  | nil => intro init; rfl
  | cons b t ih => intro init; rw [List.foldl_cons, h init b]; exact ih init

theorem forall₂_map_self {α : Type} (l : List α) (f : α → α) (P : α → α → Prop)
    (h : ∀ a ∈ l, P a (f a)) : List.Forall₂ P l (l.map f) := by
  induction l with
  | nil => exact List.Forall₂.nil
  | cons a t ih =>
    exact List.Forall₂.cons (h a (List.mem_cons_self a t))
      (ih (fun x hx => h x (List.mem_cons_of_mem a hx)))

theorem applyCenterForce_zero (dt : ℚ) (s : SimState) : applyCenterForce 0 dt s = s := by
  unfold applyCenterForce
  split
  · rfl
  · split
    · rfl
    · refine congrArg (fun ns => { s with nodes := ns }) ?_
      apply map_self
      intro n _
      rcases n with ⟨nid, nx0, ny0, nvx, nvy, nfx, nfy, nm⟩
      cases nfx <;> cases nfy <;> simp

theorem applyLinkForce_zero (sqrtF : ℚ → ℚ) (dt : ℚ) (s : SimState) :
    applyLinkForce sqrtF 0 dt s = s := by
  unfold applyLinkForce
  split
  · rfl
  · refine congrArg (fun ns => { s with nodes := ns }) ?_
    apply foldl_self
    intro ns link
    cases hs : getNode ns link.1 <;> cases ht : getNode ns link.2 <;>
      simp [updNode, ite_self]

theorem chargePairs_zero (sqrtF : ℚ → ℚ) (randF : ℕ → ℚ) (maxDist minDist : ℚ) :
    ∀ (bs : List SNode) (a : SNode) (ctr : ℕ),
      (chargePairs sqrtF randF maxDist minDist 0 a bs ctr).1 = a ∧
      (chargePairs sqrtF randF maxDist minDist 0 a bs ctr).2.1 = bs := by
  intro bs
  induction bs with
  | nil => intro a ctr; exact ⟨rfl, rfl⟩
  | cons b t ih =>
    intro a ctr
    simp only [chargePairs, zero_div, mul_zero, sub_zero, add_zero, ite_self]
    exact ⟨(ih a _).1, by rw [(ih a _).2]⟩

theorem chargeLoop_zero (sqrtF : ℚ → ℚ) (randF : ℕ → ℚ) (maxDist minDist : ℚ) :
    ∀ (fuel : ℕ) (ns : List SNode) (ctr : ℕ),
      (chargeLoop sqrtF randF maxDist minDist 0 fuel ns ctr).1 = ns := by
  intro fuel
  induction fuel with
  | zero => intro ns ctr; rfl
  | succ fuel ih =>
    intro ns ctr
    cases ns with
    | nil => rfl
    | cons a rest =>
      simp only [chargeLoop]
      rw [(chargePairs_zero sqrtF randF maxDist minDist rest a ctr).1,
        (chargePairs_zero sqrtF randF maxDist minDist rest a ctr).2, ih]

theorem applyChargeForce_zero (sqrtF : ℚ → ℚ) (randF : ℕ → ℚ) (dt : ℚ) (s : SimState) :
    applyChargeForce sqrtF randF 0 dt s = s := by
  unfold applyChargeForce
  split
  · rfl
  · refine congrArg (fun ns => { s with nodes := ns }) ?_
    rw [show s.options.chargeStrength * 0 * dt = 0 by ring]
    exact chargeLoop_zero sqrtF randF _ _ _ _ _

theorem collidePairs_skip (sqrtF : ℚ → ℚ) (minDistance dt : ℚ) :
    ∀ (bs : List SNode) (a : SNode),
      (∀ b ∈ bs,
        minDistance - sqrtF ((b.x - a.x) * (b.x - a.x) + (b.y - a.y) * (b.y - a.y)) ≤ 0) →
      collidePairs sqrtF minDistance dt a bs = (a, bs) := by
  intro bs
  induction bs with
  | nil => intro a _; rfl
  | cons b t ih =>
    intro a h
    have hb := h b (List.mem_cons_self b t)
    have hov : minDistance -
        (fixZeroDist (sqrtF ((b.x - a.x) * (b.x - a.x) + (b.y - a.y) * (b.y - a.y)))
          (b.x - a.x)).1 ≤ 0 := by
      unfold fixZeroDist
      split
      · next h0 =>
        rw [h0] at hb
        norm_num at hb ⊢
        linarith
      · exact hb
    simp only [collidePairs]
    rw [if_pos hov, ih a (fun x hx => h x (List.mem_cons_of_mem b hx))]

theorem collideLoop_skip (sqrtF : ℚ → ℚ) (minDistance dt : ℚ) :
    ∀ (fuel : ℕ) (ns : List SNode),
      ns.Pairwise (fun a b =>
        minDistance - sqrtF ((b.x - a.x) * (b.x - a.x) + (b.y - a.y) * (b.y - a.y)) ≤ 0) →
      collideLoop sqrtF minDistance dt fuel ns = ns := by
  intro fuel
  induction fuel with
  | zero => intro ns _; rfl
  | succ fuel ih =>
    intro ns hp
    cases ns with
    | nil => rfl
    | cons a rest =>
      rw [List.pairwise_cons] at hp
      simp only [collideLoop]
      rw [collidePairs_skip sqrtF minDistance dt rest a hp.1, ih rest hp.2]

theorem applyCollisionForce_sep (sqrtF : ℚ → ℚ) (dt : ℚ) (s : SimState)
    (hsep : s.nodes.Pairwise (fun a b =>
      s.options.collisionRadius * 2 -
        sqrtF ((b.x - a.x) * (b.x - a.x) + (b.y - a.y) * (b.y - a.y)) ≤ 0)) :
    applyCollisionForce sqrtF dt s = s := by
  unfold applyCollisionForce
  split
  · rfl
  · exact congrArg (fun ns => { s with nodes := ns })
      (collideLoop_skip sqrtF _ dt _ _ hsep)

/-! ## Claim theorems about the Force Simulation Engine -/

/-- C1 (amended): when alpha, alphaTarget and alphaMin are all 0, every
node's velocity is zero, and no two registered nodes are within
`2 × collisionRadius` of each other (as measured through the Math.sqrt
interpretation), one `tick(dt)` leaves every node that is not fully
pinned at exactly its previous position. -/
theorem tick_fixes_positions_at_zero_alpha (sqrtF : ℚ → ℚ) (randF : ℕ → ℚ) (dt : ℚ)
    (s : SimState)
    (h0 : s.alpha = 0) (h1 : s.options.alphaTarget = 0) (hmin : s.options.alphaMin = 0)
    (hv : ∀ n ∈ s.nodes, n.vx = 0 ∧ n.vy = 0)
    (hsep : s.nodes.Pairwise (fun a b =>
      s.options.collisionRadius * 2 -
        sqrtF ((b.x - a.x) * (b.x - a.x) + (b.y - a.y) * (b.y - a.y)) ≤ 0)) :
    List.Forall₂ (fun nIn nOut =>
        ¬(nIn.fx.isSome ∧ nIn.fy.isSome) → nOut.x = nIn.x ∧ nOut.y = nIn.y)
      s.nodes (tick sqrtF randF dt s).nodes := by
  unfold tick
  by_cases hemp : s.nodes.isEmpty
  · rw [if_pos hemp, List.isEmpty_iff.mp hemp]
    exact List.Forall₂.nil
  · rw [if_neg hemp]
    have e : s.alpha + (s.options.alphaTarget - s.alpha) * s.options.alphaDecay = 0 := by
      rw [h0, h1]; ring
    simp only [e, applyCenterForce_zero, applyLinkForce_zero, applyChargeForce_zero,
      applyCollisionForce_sep sqrtF dt { s with alpha := 0 } hsep]
    apply forall₂_map_self
    intro n hn
    have hvn := hv n hn
    rcases n with ⟨nid, nx0, ny0, nvx, nvy, nfx, nfy, nm⟩
    intro hp
    cases nfx <;> cases nfy <;> simp_all

/-- C1 witness: one unpinned node at (3,4), zero velocity, all
temperatures 0 — the tick leaves its position unchanged. -/
theorem tick_fixes_positions_at_zero_alpha_witness :
    List.Forall₂ (fun nIn nOut =>
        ¬(nIn.fx.isSome ∧ nIn.fy.isSome) → nOut.x = nIn.x ∧ nOut.y = nIn.y)
      [({ id := 0, x := 3, y := 4 } : SNode)]
      ((tick (fun _ => 0) (fun _ => 0) 1
        { options := { FORCE_DEFAULTS with alphaMin := 0, alpha := 0 }, alpha := 0,
          nodes := [{ id := 0, x := 3, y := 4 }], links := [] }).nodes) :=
  tick_fixes_positions_at_zero_alpha (fun _ => 0) (fun _ => 0) 1
    { options := { FORCE_DEFAULTS with alphaMin := 0, alpha := 0 }, alpha := 0,
      nodes := [{ id := 0, x := 3, y := 4 }], links := [] }
    rfl rfl rfl (by simp) (by simp)

/-- C1 (counterexample): a simulation with
`alpha = alphaTarget = alphaMin = 0.002` (the default `alphaMin`) and one
unpinned node at (100, 0): a single default-options `tick()` moves the
node to x = 12499/125 = 99.992.  The center force still acts at
`alpha = alphaMin > 0`, so the claimed settled fixed point fails. -/
theorem tick_moves_settled_node_cex :
    (({ options := { FORCE_DEFAULTS with alpha := 0.002, alphaTarget := 0.002 },
        alpha := 0.002, nodes := [{ id := 0, x := 100, y := 0 }], links := [] } : SimState).alpha
      = ({ FORCE_DEFAULTS with alpha := 0.002, alphaTarget := 0.002 } : FOptions).alphaTarget ∧
     ({ options := { FORCE_DEFAULTS with alpha := 0.002, alphaTarget := 0.002 },
        alpha := 0.002, nodes := [{ id := 0, x := 100, y := 0 }], links := [] } : SimState).alpha
      = ({ FORCE_DEFAULTS with alpha := 0.002, alphaTarget := 0.002 } : FOptions).alphaMin) ∧
    getNode (tick sqrtAt100 (fun _ => 0) 1
        { options := { FORCE_DEFAULTS with alpha := 0.002, alphaTarget := 0.002 },
          alpha := 0.002, nodes := [{ id := 0, x := 100, y := 0 }], links := [] }).nodes 0
      = some { id := 0, x := 12499/125, y := 0, vx := -(1/125), vy := 0 } ∧
    (12499/125 : ℚ) ≠ 100 := by
  refine ⟨⟨by norm_num [FORCE_DEFAULTS], by norm_num [FORCE_DEFAULTS]⟩, ?_, by norm_num⟩
  norm_num [tick, applyCenterForce, applyLinkForce, applyChargeForce, applyCollisionForce,
    getNode, FORCE_DEFAULTS]

/-- C2 (code bug): two unpinned nodes at distance 10 (within
`[minDistance, maxChargeDistance]`, so the claimed inverse-square
magnitude `|chargeStrength|·alpha·dt / distance² = 90/100` applies
exactly) under the default `chargeStrength = -300 < 0`: after the charge
pass the left node (id 0, at x = 0) has velocity +9/10 — toward the right
node — and the right node (id 1, at x = 10) has velocity −9/10 — toward
the left node.  A negative `chargeStrength` therefore pulls the pair
together; the claimed repulsion direction is inverted (the `-=` / `+=`
on the two endpoints are swapped). -/
theorem chargeForce_negative_strength_attracts :
    FORCE_DEFAULTS.chargeStrength < 0 ∧
    FORCE_DEFAULTS.minDistance ≤ 10 ∧ (10 : ℚ) ≤ FORCE_DEFAULTS.maxChargeDistance ∧
    sqrtAt100 ((10 - 0) * (10 - 0) + (0 - 0) * (0 - 0)) = 10 ∧
    getNode (applyChargeForce sqrtAt100 (fun _ => 0) 0.3 1
        { options := FORCE_DEFAULTS, alpha := 0.3,
          nodes := [{ id := 0, x := 0, y := 0 }, { id := 1, x := 10, y := 0 }],
          links := [] }).nodes 0
      = some { id := 0, x := 0, y := 0, vx := 9/10, vy := 0 } ∧
    getNode (applyChargeForce sqrtAt100 (fun _ => 0) 0.3 1
        { options := FORCE_DEFAULTS, alpha := 0.3,
          nodes := [{ id := 0, x := 0, y := 0 }, { id := 1, x := 10, y := 0 }],
          links := [] }).nodes 1
      = some { id := 1, x := 10, y := 0, vx := -(9/10), vy := 0 } ∧
    (0 : ℚ) < 9/10 ∧ (-(9/10) : ℚ) < 0 := by
  refine ⟨by norm_num [FORCE_DEFAULTS], by norm_num [FORCE_DEFAULTS],
    by norm_num [FORCE_DEFAULTS], by norm_num [sqrtAt100], ?_, ?_, by norm_num, by norm_num⟩ <;>
  norm_num [applyChargeForce, chargeLoop, chargePairs, chargeJitter, getNode, sqrtAt100,
    FORCE_DEFAULTS]

/-! ## The pin invariant (claim C7) -/

theorem getNode_mem : ∀ (l : List SNode) (k : Nat) {n : SNode},
    getNode l k = some n → n ∈ l ∧ n.id = k := by
  intro l
  induction l with
  | nil => intro k n h; cases h
  | cons m t ih =>
    intro k n h
    simp only [getNode] at h
    by_cases hm : m.id = k
    · rw [if_pos hm] at h
      cases h
      exact ⟨List.mem_cons_self m t, hm⟩
    · rw [if_neg hm] at h
      obtain ⟨h1, h2⟩ := ih k h
      exact ⟨List.mem_cons_of_mem m h1, h2⟩

theorem getNode_isSome_iff : ∀ (l : List SNode) (k : Nat),
    (getNode l k).isSome ↔ k ∈ l.map (·.id) := by
  intro l
  induction l with
  | nil => intro k; simp [getNode]
  | cons m t ih =>
    intro k
    by_cases hm : m.id = k
    · simp [getNode, hm]
    · have hm2 : ¬(k = m.id) := fun e => hm e.symm
      simp [getNode, hm, hm2, ih]

theorem map_congr_own {α β : Type} (l : List α) (f g : α → β) (h : ∀ a ∈ l, f a = g a) :
    l.map f = l.map g := by
  induction l with
  | nil => rfl
  | cons a t ih =>
    simp only [List.map_cons, h a (List.mem_cons_self a t),
      ih (fun x hx => h x (List.mem_cons_of_mem a hx))]

theorem updNode_ids (l : List SNode) (k : Nat) (f : SNode → SNode)
    (hf : ∀ n, (f n).id = n.id) :
    (updNode l k f).map (·.id) = l.map (·.id) := by
  unfold updNode
  rw [List.map_map]
  apply map_congr_own
  intro a _
  by_cases hk : a.id = k <;> simp [hk, hf]

theorem updNode_pin (idp : Nat) (px py : ℚ) (l : List SNode) (k : Nat) (f : SNode → SNode)
    (hk : k ≠ idp) (hf : ∀ n, (f n).id = n.id)
    (hl : ∀ n ∈ l, pinnedAt idp px py n) :
    ∀ n ∈ updNode l k f, pinnedAt idp px py n := by
  intro n hn
  unfold updNode at hn
  rw [List.mem_map] at hn
  obtain ⟨m, hm, rfl⟩ := hn
  by_cases hmk : m.id = k
  · rw [if_pos hmk]
    intro hid
    exact absurd (by rw [← hmk, ← hf m, hid] : k = idp) hk
  · rw [if_neg hmk]
    exact hl m hm

theorem guard_pin_vel (idp : Nat) (px py : ℚ) (a : SNode) (vx vy : ℚ)
    (ha : pinnedAt idp px py a) :
    pinnedAt idp px py (if a.fx = none then { a with vx := vx, vy := vy } else a) ∧
    (if a.fx = none then { a with vx := vx, vy := vy } else a).id = a.id := by
  by_cases haf : a.fx = none
  · rw [if_pos haf]
    refine ⟨fun hid => ?_, rfl⟩
    exfalso
    have hsome := (ha hid).2.2.2.2.1
    rw [haf] at hsome
    cases hsome
  · rw [if_neg haf]
    exact ⟨ha, rfl⟩

theorem guard_pin_pos (idp : Nat) (px py : ℚ) (a : SNode) (x y : ℚ)
    (ha : pinnedAt idp px py a) :
    pinnedAt idp px py (if a.fx = none then { a with x := x, y := y } else a) ∧
    (if a.fx = none then { a with x := x, y := y } else a).id = a.id := by
  by_cases haf : a.fx = none
  · rw [if_pos haf]
    refine ⟨fun hid => ?_, rfl⟩
    exfalso
    have hsome := (ha hid).2.2.2.2.1
    rw [haf] at hsome
    cases hsome
  · rw [if_neg haf]
    exact ⟨ha, rfl⟩

theorem foldl_preserve {β : Type} (P : List SNode → Prop) (step : List SNode → β → List SNode)
    (hstep : ∀ ns b, P ns → P (step ns b)) :
    ∀ (l : List β) (ns : List SNode), P ns → P (l.foldl step ns) := by
  intro l
  induction l with
  | nil => intro ns h; exact h
  | cons b t ih => intro ns h; exact ih (step ns b) (hstep ns b h)

theorem applyCenterForce_pin (idp : Nat) (px py : ℚ) (al dt : ℚ) (s : SimState)
    (h : ∀ n ∈ s.nodes, pinnedAt idp px py n) :
    ((applyCenterForce al dt s).nodes.map (·.id) = s.nodes.map (·.id)) ∧
    (∀ n ∈ (applyCenterForce al dt s).nodes, pinnedAt idp px py n) := by
  unfold applyCenterForce
  split
  · exact ⟨rfl, h⟩
  · split
    · exact ⟨rfl, h⟩
    · constructor
      · rw [List.map_map]
        apply map_congr_own
        intro a _
        rcases a with ⟨aid, ax, ay, avx, avy, afx, afy, am⟩
        cases afx <;> cases afy <;> rfl
      · intro n hn
        rw [List.mem_map] at hn
        obtain ⟨m, hm, rfl⟩ := hn
        have hpm := h m hm
        cases hfx : m.fx with
        | none =>
          cases hfy : m.fy <;>
          · intro hid
            have hc := (hpm hid).2.2.2.2.1
            rw [hfx] at hc
            cases hc
        | some v =>
          cases hfy : m.fy with
          | none =>
            intro hid
            have hc := (hpm hid).2.2.2.2.2
            rw [hfy] at hc
            cases hc
          | some w => exact hpm

theorem applyLinkForce_pin (sqrtF : ℚ → ℚ) (idp : Nat) (px py : ℚ) (al dt : ℚ) (s : SimState)
    (h : ∀ n ∈ s.nodes, pinnedAt idp px py n) :
    ((applyLinkForce sqrtF al dt s).nodes.map (·.id) = s.nodes.map (·.id)) ∧
    (∀ n ∈ (applyLinkForce sqrtF al dt s).nodes, pinnedAt idp px py n) := by
  unfold applyLinkForce
  split
  · exact ⟨rfl, h⟩
  · refine foldl_preserve
      (fun ns => (ns.map (·.id) = s.nodes.map (·.id)) ∧ ∀ n ∈ ns, pinnedAt idp px py n)
      _ ?_ s.links s.nodes ⟨rfl, h⟩
    intro ns link hP
    obtain ⟨hI, hA⟩ := hP
    cases hgs : getNode ns link.1 with
    | none =>
      cases hgt : getNode ns link.2 with
      | none => exact ⟨hI, hA⟩
      | some target => exact ⟨hI, hA⟩
    | some source =>
      cases hgt : getNode ns link.2 with
      | none => exact ⟨hI, hA⟩
      | some target =>
        obtain ⟨hsmem, _⟩ := getNode_mem ns link.1 hgs
        obtain ⟨htmem, _⟩ := getNode_mem ns link.2 hgt
        have hgsrc : source.fx = none → source.id ≠ idp := by
          intro hf hid
          have hsome := (hA source hsmem hid).2.2.2.2.1
          rw [hf] at hsome
          cases hsome
        have hgtgt : target.fx = none → target.id ≠ idp := by
          intro hf hid
          have hsome := (hA target htmem hid).2.2.2.2.1
          rw [hf] at hsome
          cases hsome
        by_cases hfs : source.fx = none
        · by_cases hft : target.fx = none
          · simp only [if_pos hfs, if_pos hft]
            refine ⟨?_, ?_⟩
            · refine (updNode_ids _ _ _ ?_).trans ((updNode_ids _ _ _ ?_).trans hI) <;>
                exact fun n => rfl
            · refine updNode_pin idp px py _ _ _ (hgtgt hft) ?_
                (updNode_pin idp px py _ _ _ (hgsrc hfs) ?_ hA) <;> exact fun n => rfl
          · simp only [if_pos hfs, if_neg hft]
            refine ⟨(updNode_ids _ _ _ ?_).trans hI,
              updNode_pin idp px py _ _ _ (hgsrc hfs) ?_ hA⟩ <;> exact fun n => rfl
        · by_cases hft : target.fx = none
          · simp only [if_neg hfs, if_pos hft]
            refine ⟨(updNode_ids _ _ _ ?_).trans hI,
              updNode_pin idp px py _ _ _ (hgtgt hft) ?_ hA⟩ <;> exact fun n => rfl
          · simp only [if_neg hfs, if_neg hft]
            exact ⟨hI, hA⟩

theorem chargePairs_pin (sqrtF : ℚ → ℚ) (randF : ℕ → ℚ) (idp : Nat) (px py : ℚ)
    (maxDist minDist k : ℚ) :
    ∀ (bs : List SNode) (a : SNode) (ctr : ℕ),
      pinnedAt idp px py a → (∀ b ∈ bs, pinnedAt idp px py b) →
      ((chargePairs sqrtF randF maxDist minDist k a bs ctr).1.id = a.id ∧
       pinnedAt idp px py (chargePairs sqrtF randF maxDist minDist k a bs ctr).1) ∧
      ((chargePairs sqrtF randF maxDist minDist k a bs ctr).2.1.map (·.id) = bs.map (·.id) ∧
       ∀ b ∈ (chargePairs sqrtF randF maxDist minDist k a bs ctr).2.1, pinnedAt idp px py b) := by
  intro bs
  induction bs with
  | nil =>
    intro a ctr ha _
    exact ⟨⟨rfl, ha⟩, rfl, fun b hb => absurd hb (List.not_mem_nil b)⟩
  | cons b t ih =>
    intro a ctr ha hbs
    have hb := hbs b (List.mem_cons_self b t)
    have ht : ∀ x ∈ t, pinnedAt idp px py x := fun x hx => hbs x (List.mem_cons_of_mem b hx)
    simp only [chargePairs]
    split
    · obtain ⟨⟨h1, h2⟩, h3, h4⟩ :=
        ih a (chargeJitter randF (b.x - a.x) (b.y - a.y) ctr).2.2 ha ht
      refine ⟨⟨h1, h2⟩, ?_, ?_⟩
      · simp only [List.map_cons, h3]
      · intro n hn
        rcases List.mem_cons.mp hn with rfl | hn2
        · exact hb
        · exact h4 n hn2
    · obtain ⟨hpa1, hia1⟩ := guard_pin_vel idp px py a _ _ ha
      obtain ⟨hpb1, hib1⟩ := guard_pin_vel idp px py b _ _ hb
      obtain ⟨⟨h1, h2⟩, h3, h4⟩ := ih _ _ hpa1 ht
      refine ⟨⟨h1.trans hia1, h2⟩, ?_, ?_⟩
      · simp only [List.map_cons, h3]
        congr 1
      · intro n hn
        rcases List.mem_cons.mp hn with rfl | hn2
        · exact hpb1
        · exact h4 n hn2

theorem chargeLoop_pin (sqrtF : ℚ → ℚ) (randF : ℕ → ℚ) (idp : Nat) (px py : ℚ)
    (maxDist minDist k : ℚ) :
    ∀ (fuel : ℕ) (ns : List SNode) (ctr : ℕ),
      (∀ n ∈ ns, pinnedAt idp px py n) →
      ((chargeLoop sqrtF randF maxDist minDist k fuel ns ctr).1.map (·.id) = ns.map (·.id) ∧
       ∀ n ∈ (chargeLoop sqrtF randF maxDist minDist k fuel ns ctr).1, pinnedAt idp px py n) := by
  intro fuel
  induction fuel with
  | zero => intro ns ctr h; exact ⟨rfl, h⟩
  | succ fuel ih =>
    intro ns ctr h
    cases ns with
    | nil => exact ⟨rfl, h⟩
    | cons a rest =>
      have ha := h a (List.mem_cons_self a rest)
      have hrest : ∀ x ∈ rest, pinnedAt idp px py x :=
        fun x hx => h x (List.mem_cons_of_mem a hx)
      obtain ⟨⟨h1, h2⟩, h3, h4⟩ :=
        chargePairs_pin sqrtF randF idp px py maxDist minDist k rest a ctr ha hrest
      obtain ⟨h5, h6⟩ := ih (chargePairs sqrtF randF maxDist minDist k a rest ctr).2.1
        (chargePairs sqrtF randF maxDist minDist k a rest ctr).2.2 h4
      simp only [chargeLoop]
      refine ⟨?_, ?_⟩
      · simp only [List.map_cons, h1, h5, h3]
      · intro n hn
        rcases List.mem_cons.mp hn with rfl | hn2
        · exact h2
        · exact h6 n hn2

theorem applyChargeForce_pin (sqrtF : ℚ → ℚ) (randF : ℕ → ℚ) (idp : Nat) (px py : ℚ)
    (al dt : ℚ) (s : SimState) (h : ∀ n ∈ s.nodes, pinnedAt idp px py n) :
    ((applyChargeForce sqrtF randF al dt s).nodes.map (·.id) = s.nodes.map (·.id)) ∧
    (∀ n ∈ (applyChargeForce sqrtF randF al dt s).nodes, pinnedAt idp px py n) := by
  unfold applyChargeForce
  split
  · exact ⟨rfl, h⟩
  · exact chargeLoop_pin sqrtF randF idp px py _ _ _ s.nodes.length s.nodes 0 h

theorem collidePairs_pin (sqrtF : ℚ → ℚ) (idp : Nat) (px py : ℚ) (minDistance dt : ℚ) :
    ∀ (bs : List SNode) (a : SNode),
      pinnedAt idp px py a → (∀ b ∈ bs, pinnedAt idp px py b) →
      ((collidePairs sqrtF minDistance dt a bs).1.id = a.id ∧
       pinnedAt idp px py (collidePairs sqrtF minDistance dt a bs).1) ∧
      ((collidePairs sqrtF minDistance dt a bs).2.map (·.id) = bs.map (·.id) ∧
       ∀ b ∈ (collidePairs sqrtF minDistance dt a bs).2, pinnedAt idp px py b) := by
  intro bs
  induction bs with
  | nil =>
    intro a ha _
    exact ⟨⟨rfl, ha⟩, rfl, fun b hb => absurd hb (List.not_mem_nil b)⟩
  | cons b t ih =>
    intro a ha hbs
    have hb := hbs b (List.mem_cons_self b t)
    have ht : ∀ x ∈ t, pinnedAt idp px py x := fun x hx => hbs x (List.mem_cons_of_mem b hx)
    simp only [collidePairs]
    split
    · obtain ⟨⟨h1, h2⟩, h3, h4⟩ := ih a ha ht
      refine ⟨⟨h1, h2⟩, ?_, ?_⟩
      · simp only [List.map_cons, h3]
      · intro n hn
        rcases List.mem_cons.mp hn with rfl | hn2
        · exact hb
        · exact h4 n hn2
    · obtain ⟨hpa1, hia1⟩ := guard_pin_pos idp px py a _ _ ha
      obtain ⟨hpb1, hib1⟩ := guard_pin_pos idp px py b _ _ hb
      obtain ⟨⟨h1, h2⟩, h3, h4⟩ := ih _ hpa1 ht
      refine ⟨⟨h1.trans hia1, h2⟩, ?_, ?_⟩
      · simp only [List.map_cons, h3]
        congr 1
      · intro n hn
        rcases List.mem_cons.mp hn with rfl | hn2
        · exact hpb1
        · exact h4 n hn2

theorem collideLoop_pin (sqrtF : ℚ → ℚ) (idp : Nat) (px py : ℚ) (minDistance dt : ℚ) :
    ∀ (fuel : ℕ) (ns : List SNode),
      (∀ n ∈ ns, pinnedAt idp px py n) →
      ((collideLoop sqrtF minDistance dt fuel ns).map (·.id) = ns.map (·.id) ∧
       ∀ n ∈ collideLoop sqrtF minDistance dt fuel ns, pinnedAt idp px py n) := by
  intro fuel
  induction fuel with
  | zero => intro ns h; exact ⟨rfl, h⟩
  | succ fuel ih =>
    intro ns h
    cases ns with
    | nil => exact ⟨rfl, h⟩
    | cons a rest =>
      have ha := h a (List.mem_cons_self a rest)
      have hrest : ∀ x ∈ rest, pinnedAt idp px py x :=
        fun x hx => h x (List.mem_cons_of_mem a hx)
      obtain ⟨⟨h1, h2⟩, h3, h4⟩ := collidePairs_pin sqrtF idp px py minDistance dt rest a ha hrest
      obtain ⟨h5, h6⟩ := ih _ h4
      simp only [collideLoop]
      refine ⟨?_, ?_⟩
      · simp only [List.map_cons, h1, h5, h3]
      · intro n hn
        rcases List.mem_cons.mp hn with rfl | hn2
        · exact h2
        · exact h6 n hn2

theorem applyCollisionForce_pin (sqrtF : ℚ → ℚ) (idp : Nat) (px py : ℚ) (dt : ℚ)
    (s : SimState) (h : ∀ n ∈ s.nodes, pinnedAt idp px py n) :
    ((applyCollisionForce sqrtF dt s).nodes.map (·.id) = s.nodes.map (·.id)) ∧
    (∀ n ∈ (applyCollisionForce sqrtF dt s).nodes, pinnedAt idp px py n) := by
  unfold applyCollisionForce
  split
  · exact ⟨rfl, h⟩
  · exact collideLoop_pin sqrtF idp px py _ dt s.nodes.length s.nodes h

theorem pulseStep_pin (sinF cosF : ℚ → ℚ) (idp : Nat) (px py : ℚ) (anchorId : Nat) (phase : ℚ)
    (acc : List SNode × ℕ) (n : SNode) (hn : pinnedAt idp px py n) :
    ((pulseStep sinF cosF anchorId phase acc n).1.map (·.id) = acc.1.map (·.id) ++ [n.id]) ∧
    ((pulseStep sinF cosF anchorId phase acc n).1 = acc.1 ++ [n] ∨
     ∃ m, (pulseStep sinF cosF anchorId phase acc n).1 = acc.1 ++ [m] ∧
       m.id = n.id ∧ pinnedAt idp px py m) := by
  unfold pulseStep
  by_cases hanch : n.id = anchorId
  · rw [if_pos hanch]
    exact ⟨by simp, Or.inl rfl⟩
  · rw [if_neg hanch]
    cases hfx : n.fx with
    | none =>
      cases hfy : n.fy <;>
      · refine ⟨by simp, Or.inr ⟨_, rfl, rfl, ?_⟩⟩
        intro hid
        have hc := (hn hid).2.2.2.2.1
        rw [hfx] at hc
        cases hc
    | some v =>
      cases hfy : n.fy with
      | none =>
        refine ⟨by simp, Or.inr ⟨_, rfl, rfl, ?_⟩⟩
        intro hid
        have hc := (hn hid).2.2.2.2.2
        rw [hfy] at hc
        cases hc
      | some w => exact ⟨by simp, Or.inl rfl⟩

theorem pulseFold_pin (sinF cosF : ℚ → ℚ) (idp : Nat) (px py : ℚ) (anchorId : Nat) (phase : ℚ) :
    ∀ (l : List SNode) (acc : List SNode × ℕ),
      (∀ n ∈ acc.1, pinnedAt idp px py n) → (∀ n ∈ l, pinnedAt idp px py n) →
      ((l.foldl (pulseStep sinF cosF anchorId phase) acc).1.map (·.id)
          = acc.1.map (·.id) ++ l.map (·.id)) ∧
      (∀ n ∈ (l.foldl (pulseStep sinF cosF anchorId phase) acc).1, pinnedAt idp px py n) := by
  intro l
  induction l with
  | nil => intro acc hacc _; exact ⟨by simp, hacc⟩
  | cons n t ih =>
    intro acc hacc hl
    have hn := hl n (List.mem_cons_self n t)
    have ht : ∀ x ∈ t, pinnedAt idp px py x := fun x hx => hl x (List.mem_cons_of_mem n hx)
    obtain ⟨hid1, hrest⟩ := pulseStep_pin sinF cosF idp px py anchorId phase acc n hn
    have hacc2 : ∀ m ∈ (pulseStep sinF cosF anchorId phase acc n).1, pinnedAt idp px py m := by
      rcases hrest with heq | ⟨m, heq, _, hpm⟩ <;> rw [heq] <;> intro x hx <;>
        rcases List.mem_append.mp hx with h1 | h2
      · exact hacc x h1
      · rw [List.mem_singleton] at h2; subst h2; exact hn
      · exact hacc x h1
      · rw [List.mem_singleton] at h2; subst h2; exact hpm
    obtain ⟨ih1, ih2⟩ := ih (pulseStep sinF cosF anchorId phase acc n) hacc2 ht
    refine ⟨?_, ih2⟩
    rw [List.foldl_cons] at *
    rw [ih1, hid1]
    simp

theorem pulseAmbient_pin (sinF cosF : ℚ → ℚ) (idp : Nat) (px py : ℚ) (phase : ℚ)
    (s : SimState) (h : ∀ n ∈ s.nodes, pinnedAt idp px py n) :
    ((pulseAmbient sinF cosF phase s).nodes.map (·.id) = s.nodes.map (·.id)) ∧
    (∀ n ∈ (pulseAmbient sinF cosF phase s).nodes, pinnedAt idp px py n) := by
  obtain ⟨h1, h2⟩ := pulseFold_pin sinF cosF idp px py s.options.anchorNodeId phase s.nodes
    ([], 0) (fun n hn => absurd hn (List.not_mem_nil n)) h
  exact ⟨by simpa using h1, h2⟩

theorem tick_pin (sqrtF : ℚ → ℚ) (randF : ℕ → ℚ) (idp : Nat) (px py : ℚ) (dt : ℚ)
    (s : SimState) (h : ∀ n ∈ s.nodes, pinnedAt idp px py n) :
    ((tick sqrtF randF dt s).nodes.map (·.id) = s.nodes.map (·.id)) ∧
    (∀ n ∈ (tick sqrtF randF dt s).nodes, pinnedAt idp px py n) := by
  unfold tick
  split
  · exact ⟨rfl, h⟩
  · set s0 : SimState :=
      { s with alpha := s.alpha + (s.options.alphaTarget - s.alpha) * s.options.alphaDecay }
    have H1 := applyCenterForce_pin idp px py s0.alpha dt s0 h
    have H2 := applyLinkForce_pin sqrtF idp px py (applyCenterForce s0.alpha dt s0).alpha dt
      (applyCenterForce s0.alpha dt s0) H1.2
    have H3 := applyChargeForce_pin sqrtF randF idp px py
      (applyLinkForce sqrtF (applyCenterForce s0.alpha dt s0).alpha dt
        (applyCenterForce s0.alpha dt s0)).alpha dt
      (applyLinkForce sqrtF (applyCenterForce s0.alpha dt s0).alpha dt
        (applyCenterForce s0.alpha dt s0)) H2.2
    have H4 := applyCollisionForce_pin sqrtF idp px py dt
      (applyChargeForce sqrtF randF
        (applyLinkForce sqrtF (applyCenterForce s0.alpha dt s0).alpha dt
          (applyCenterForce s0.alpha dt s0)).alpha dt
        (applyLinkForce sqrtF (applyCenterForce s0.alpha dt s0).alpha dt
          (applyCenterForce s0.alpha dt s0))) H3.2
    refine ⟨?_, ?_⟩
    · rw [List.map_map]
      refine Eq.trans ?_ (H4.1.trans (H3.1.trans (H2.1.trans H1.1)))
      apply map_congr_own
      intro a _
      rcases a with ⟨aid, ax, ay, avx, avy, afx, afy, am⟩
      cases afx <;> cases afy <;> rfl
    · intro n hn
      rw [List.mem_map] at hn
      obtain ⟨m, hm, rfl⟩ := hn
      have hpm := H4.2 m hm
      cases hfx : m.fx with
      | none =>
        cases hfy : m.fy <;>
        · intro hid
          have hc := (hpm hid).2.2.2.2.1
          rw [hfx] at hc
          cases hc
      | some v =>
        cases hfy : m.fy with
        | none =>
          intro hid
          have hc := (hpm hid).2.2.2.2.2
          rw [hfy] at hc
          cases hc
        | some w =>
          intro hid
          obtain ⟨hx, hy, hvx, hvy, hfx2, hfy2⟩ := hpm hid
          rw [hfx] at hfx2
          rw [hfy] at hfy2
          cases hfx2
          cases hfy2
          exact ⟨rfl, rfl, rfl, rfl, rfl, rfl⟩

theorem setOptions_nodes (p : OptPatch) (s : SimState) : (setOptions p s).nodes = s.nodes := by
  unfold setOptions
  cases p.alpha <;> rfl

theorem applyOp_pin (sqrtF : ℚ → ℚ) (randF : ℕ → ℚ) (sinF cosF : ℚ → ℚ) (idp : Nat)
    (px py : ℚ) (op : SimOp) (s : SimState) (h : ∀ n ∈ s.nodes, pinnedAt idp px py n) :
    ((applyOp sqrtF randF sinF cosF op s).nodes.map (·.id) = s.nodes.map (·.id)) ∧
    (∀ n ∈ (applyOp sqrtF randF sinF cosF op s).nodes, pinnedAt idp px py n) := by
  cases op with
  | tick dt => exact tick_pin sqrtF randF idp px py dt s h
  | setOptions p =>
    have he : (applyOp sqrtF randF sinF cosF (SimOp.setOptions p) s).nodes = s.nodes :=
      setOptions_nodes p s
    rw [he]
    exact ⟨rfl, h⟩
  | setAlpha v => exact ⟨rfl, h⟩
  | setAlphaTarget t => exact ⟨rfl, h⟩
  | reheat t => exact ⟨rfl, h⟩
  | setEdges es => exact ⟨rfl, h⟩
  | pulseAmbient phase => exact pulseAmbient_pin sinF cosF idp px py phase s h

/-- C7: after `pinNode(id, x, y)` on a known node, any sequence of
`tick`s interleaved with the other force-affecting operations
(`setOptions`, `setAlpha`, `setAlphaTarget`, `reheat`, `setEdges`,
`pulseAmbient`) — everything except `unpinNode` / `movePinnedNode` —
leaves that node at exactly (x, y) with zero velocity and its pin
override intact.  (Coordinates are rationals, hence finite.) -/
theorem pinned_node_invariant_under_ops (sqrtF : ℚ → ℚ) (randF : ℕ → ℚ) (sinF cosF : ℚ → ℚ)
    (s : SimState) (idp : Nat) (px py : ℚ) (ops : List SimOp) (n0 : SNode)
    (hknown : getNode s.nodes idp = some n0) :
    ∃ n, getNode ((ops.foldl (fun st op => applyOp sqrtF randF sinF cosF op st)
        (pinNode idp px py s)).nodes) idp = some n ∧
      n.x = px ∧ n.y = py ∧ n.vx = 0 ∧ n.vy = 0 ∧ n.fx = some px ∧ n.fy = some py := by
  have hbasePin : ∀ n ∈ (pinNode idp px py s).nodes, pinnedAt idp px py n := by
    intro n hn
    have hn2 : n ∈ s.nodes.map (fun m =>
        if m.id = idp then
          { m with x := px, y := py, fx := some px, fy := some py, vx := 0, vy := 0 }
        else m) := hn
    rw [List.mem_map] at hn2
    obtain ⟨m, hm, rfl⟩ := hn2
    by_cases hmk : m.id = idp
    · rw [if_pos hmk]
      exact fun _ => ⟨rfl, rfl, rfl, rfl, rfl, rfl⟩
    · rw [if_neg hmk]
      exact fun hid => absurd hid hmk
  have hbaseIds : (pinNode idp px py s).nodes.map (·.id) = s.nodes.map (·.id) :=
    updNode_ids _ _ _ (fun n => rfl)
  have hmem0 : idp ∈ (pinNode idp px py s).nodes.map (·.id) := by
    rw [hbaseIds]
    exact (getNode_isSome_iff s.nodes idp).mp (by rw [hknown]; rfl)
  have hfold : ∀ (l : List SimOp) (st : SimState),
      (∀ n ∈ st.nodes, pinnedAt idp px py n) → idp ∈ st.nodes.map (·.id) →
      (∀ n ∈ (l.foldl (fun st op => applyOp sqrtF randF sinF cosF op st) st).nodes,
        pinnedAt idp px py n) ∧
      idp ∈ (l.foldl (fun st op => applyOp sqrtF randF sinF cosF op st) st).nodes.map (·.id) := by
    intro l
    induction l with
    | nil => intro st h1 h2; exact ⟨h1, h2⟩
    | cons op t ih =>
      intro st h1 h2
      obtain ⟨hid, hpins⟩ := applyOp_pin sqrtF randF sinF cosF idp px py op st h1
      exact ih _ hpins (by rw [hid]; exact h2)
  obtain ⟨hpins, hmem⟩ := hfold ops (pinNode idp px py s) hbasePin hmem0
  obtain ⟨n, hn⟩ := Option.isSome_iff_exists.mp ((getNode_isSome_iff _ idp).mpr hmem)
  obtain ⟨hmemn, hidn⟩ := getNode_mem _ idp hn
  obtain ⟨hx, hy, hvx, hvy, hfx, hfy⟩ := hpins n hmemn hidn
  exact ⟨n, hn, hx, hy, hvx, hvy, hfx, hfy⟩

/-- C7 witness: pin the single known node at (5, 6) and run one tick, a
reheat and another tick: it stays at (5, 6), velocity zero, pin set. -/
theorem pinned_node_invariant_under_ops_witness :
    ∃ n, getNode (([SimOp.tick 1, SimOp.reheat 0.2, SimOp.tick 1].foldl
        (fun st op => applyOp (fun _ => 0) (fun _ => 0) (fun _ => 0) (fun _ => 0) op st)
        (pinNode 7 5 6
          { options := FORCE_DEFAULTS, alpha := 0.3,
            nodes := [{ id := 7, x := 1, y := 2 }], links := [] })).nodes) 7 = some n ∧
      n.x = 5 ∧ n.y = 6 ∧ n.vx = 0 ∧ n.vy = 0 ∧ n.fx = some 5 ∧ n.fy = some 6 :=
  pinned_node_invariant_under_ops (fun _ => 0) (fun _ => 0) (fun _ => 0) (fun _ => 0)
    { options := FORCE_DEFAULTS, alpha := 0.3,
      nodes := [{ id := 7, x := 1, y := 2 }], links := [] }
    7 5 6 [SimOp.tick 1, SimOp.reheat 0.2, SimOp.tick 1] { id := 7, x := 1, y := 2 } rfl

end Force

namespace ForceJ

theorem getNodeJ_eq_none (l : List JNode) (id : Nat) :
    getNodeJ l id = none ↔ ∀ n ∈ l, n.id ≠ id := by
  induction l with
  | nil => simp [getNodeJ]
  | cons a t ih => by_cases h : a.id = id <;> simp [getNodeJ, h, ih]

theorem getNodeJ_mem (l : List JNode) (id : Nat) (n : JNode)
    (h : getNodeJ l id = some n) : n ∈ l := by
  induction l with
  | nil => cases h
  | cons a t ih =>
    by_cases ha : a.id = id
    · rw [getNodeJ, if_pos ha] at h
      cases h
      exact List.mem_cons_self _ _
    · rw [getNodeJ, if_neg ha] at h
      exact List.mem_cons_of_mem a (ih h)

theorem updNodeJ_absent (id : Nat) (f : JNode → JNode) :
    ∀ l : List JNode, (∀ n ∈ l, n.id ≠ id) → updNodeJ l id f = l := by
  intro l
  induction l with
  | nil => intro _; rfl
  | cons a t ih =>
    intro h
    have ha : ¬ a.id = id := h a (List.mem_cons_self a t)
    have ht : updNodeJ t id f = t := ih (fun n hn => h n (List.mem_cons_of_mem a hn))
    show (if a.id = id then f a else a) :: updNodeJ t id f = a :: t
    rw [if_neg ha, ht]

theorem pinNodeJ_unknown_noop (id : Nat) (x y : JSNum) (s : JState)
    (h : getNodeJ s.nodes id = none) : pinNodeJ id x y s = s := by
  have hall := (getNodeJ_eq_none s.nodes id).mp h
  show { s with nodes := updNodeJ s.nodes id _ } = s
  rw [updNodeJ_absent id _ s.nodes hall]

theorem movePinnedNodeJ_unknown_noop (id : Nat) (x y : JSNum) (s : JState)
    (h : getNodeJ s.nodes id = none) : movePinnedNodeJ id x y s = s := by
  have hall := (getNodeJ_eq_none s.nodes id).mp h
  unfold movePinnedNodeJ
  split
  · show { s with nodes := updNodeJ s.nodes id _ } = s
    rw [updNodeJ_absent id _ s.nodes hall]
  · rfl

theorem unpinNodeJ_unknown_noop (id : Nat) (s : JState)
    (h : getNodeJ s.nodes id = none) : unpinNodeJ id s = s := by
  have hall := (getNodeJ_eq_none s.nodes id).mp h
  show { s with nodes := updNodeJ s.nodes id _ } = s
  rw [updNodeJ_absent id _ s.nodes hall]

theorem movePinnedNodeJ_nonfinite_noop (id : Nat) (x y : JSNum) (s : JState)
    (h : (x.isFinite && y.isFinite) = false) : movePinnedNodeJ id x y s = s := by
  unfold movePinnedNodeJ
  rw [h]
  rfl

theorem finiteOK_iff (n : JNode) :
    n.finiteOK = true ↔
      n.x.isFinite = true ∧ n.y.isFinite = true ∧ n.vx.isFinite = true ∧
      n.vy.isFinite = true ∧ (∀ v, n.fx = some v → v.isFinite = true) ∧
      (∀ v, n.fy = some v → v.isFinite = true) := by
  unfold JNode.finiteOK
  cases hfx : n.fx <;> cases hfy : n.fy <;>
    simp [Bool.and_eq_true, and_assoc]

theorem pinNodeJ_finiteOK (id : Nat) (x y : JSNum) (s : JState)
    (h : ∀ n ∈ s.nodes, n.finiteOK = true) :
    ∀ n ∈ (pinNodeJ id x y s).nodes, n.finiteOK = true := by
  intro n hn
  have hn2 : n ∈ s.nodes.map (fun m =>
      if m.id = id then
        let n1 := if x.isFinite then { m with x := x } else m
        let n2 := if y.isFinite then { n1 with y := y } else n1
        { n2 with fx := some (if x.isFinite then x else n2.x),
                  fy := some (if y.isFinite then y else n2.y),
                  vx := .num 0, vy := .num 0 }
      else m) := hn
  rw [List.mem_map] at hn2
  obtain ⟨m, hm, rfl⟩ := hn2
  obtain ⟨h1, h2, h3, h4, h5, h6⟩ := (finiteOK_iff m).mp (h m hm)
  by_cases hmk : m.id = id
  · rw [if_pos hmk]
    cases hx : x.isFinite <;> cases hy : y.isFinite
    · show ({ m with fx := some m.x, fy := some m.y, vx := JSNum.num 0, vy := JSNum.num 0 } : JNode).finiteOK = true
      rw [finiteOK_iff]
      exact ⟨h1, h2, rfl, rfl, fun v hv => by cases hv; exact h1,
             fun v hv => by cases hv; exact h2⟩
    · show ({ m with y := y, fx := some m.x, fy := some y, vx := JSNum.num 0, vy := JSNum.num 0 } : JNode).finiteOK = true
      rw [finiteOK_iff]
      exact ⟨h1, hy, rfl, rfl, fun v hv => by cases hv; exact h1,
             fun v hv => by cases hv; exact hy⟩
    · show ({ m with x := x, fx := some x, fy := some m.y, vx := JSNum.num 0, vy := JSNum.num 0 } : JNode).finiteOK = true
      rw [finiteOK_iff]
      exact ⟨hx, h2, rfl, rfl, fun v hv => by cases hv; exact hx,
             fun v hv => by cases hv; exact h2⟩
    · show ({ m with x := x, y := y, fx := some x, fy := some y, vx := JSNum.num 0, vy := JSNum.num 0 } : JNode).finiteOK = true
      rw [finiteOK_iff]
      exact ⟨hx, hy, rfl, rfl, fun v hv => by cases hv; exact hx,
             fun v hv => by cases hv; exact hy⟩
  · rw [if_neg hmk]
    exact h m hm

theorem seedFrom_isFinite (sup : Option JSNum) : (seedFrom sup).isFinite = true := by
  cases sup with
  | none => rfl
  | some w =>
    show (if w.isFinite = true then w else JSNum.num 0).isFinite = true
    cases hw : w.isFinite
    · rw [if_neg Bool.false_ne_true]
      rfl
    · rw [if_pos rfl]
      exact hw

theorem seedCoord_isFinite (ex sup : Option JSNum) : (seedCoord ex sup).isFinite = true := by
  cases ex with
  | none => exact seedFrom_isFinite sup
  | some v =>
    cases hv : v.isFinite <;> simp [seedCoord, hv, seedFrom_isFinite]

theorem mem_upsertNodeJ (m : JNode) :
    ∀ (l : List JNode) (n : JNode), n ∈ upsertNodeJ l m → n ∈ l ∨ n = m := by
  intro l
  induction l with
  | nil =>
    intro n hn
    rcases List.mem_singleton.mp hn with rfl
    exact Or.inr rfl
  | cons a t ih =>
    intro n hn
    unfold upsertNodeJ at hn
    split at hn
    · rcases List.mem_cons.mp hn with rfl | hn2
      · exact Or.inr rfl
      · exact Or.inl (List.mem_cons_of_mem a hn2)
    · rcases List.mem_cons.mp hn with rfl | hn2
      · exact Or.inl (List.mem_cons_self n t)
      · rcases ih n hn2 with h | h
        · exact Or.inl (List.mem_cons_of_mem a h)
        · exact Or.inr h

theorem mem_setNodesJ_foldl (s : JState) :
    ∀ (rest : List JNodeSpec) (acc : List JNode) (n : JNode),
      n ∈ rest.foldl (fun acc nd => upsertNodeJ acc (buildJ s nd)) acc →
      n ∈ acc ∨ ∃ nd ∈ rest, n = buildJ s nd := by
  intro rest
  induction rest with
  | nil => intro acc n hn; exact Or.inl hn
  | cons nd t ih =>
    intro acc n hn
    rw [List.foldl_cons] at hn
    rcases ih (upsertNodeJ acc (buildJ s nd)) n hn with h | ⟨nd2, hnd2, rfl⟩
    · rcases mem_upsertNodeJ (buildJ s nd) acc n h with h2 | rfl
      · exact Or.inl h2
      · exact Or.inr ⟨nd, List.mem_cons_self nd t, rfl⟩
    · exact Or.inr ⟨nd2, List.mem_cons_of_mem nd hnd2, rfl⟩

theorem buildJ_finiteOK (s : JState) (nd : JNodeSpec)
    (h : ∀ n ∈ s.nodes, n.finiteOK = true) : (buildJ s nd).finiteOK = true := by
  rw [finiteOK_iff]
  cases hex : getNodeJ s.nodes nd.id with
  | none =>
    refine ⟨seedCoord_isFinite _ _, seedCoord_isFinite _ _, ?_, ?_, ?_, ?_⟩
    · show ((Option.map (fun n => n.vx) (getNodeJ s.nodes nd.id)).getD
          (JSNum.num 0)).isFinite = true
      rw [hex]
      rfl
    · show ((Option.map (fun n => n.vy) (getNodeJ s.nodes nd.id)).getD
          (JSNum.num 0)).isFinite = true
      rw [hex]
      rfl
    · intro v hv
      have hv2 : (Option.map (fun n => n.fx) (getNodeJ s.nodes nd.id)).getD none
          = some v := hv
      rw [hex] at hv2
      cases hv2
    · intro v hv
      have hv2 : (Option.map (fun n => n.fy) (getNodeJ s.nodes nd.id)).getD none
          = some v := hv
      rw [hex] at hv2
      cases hv2
  | some ex =>
    obtain ⟨h1, h2, h3, h4, h5, h6⟩ := (finiteOK_iff ex).mp (h ex (getNodeJ_mem _ _ _ hex))
    refine ⟨seedCoord_isFinite _ _, seedCoord_isFinite _ _, ?_, ?_, ?_, ?_⟩
    · show ((Option.map (fun n => n.vx) (getNodeJ s.nodes nd.id)).getD
          (JSNum.num 0)).isFinite = true
      rw [hex]
      exact h3
    · show ((Option.map (fun n => n.vy) (getNodeJ s.nodes nd.id)).getD
          (JSNum.num 0)).isFinite = true
      rw [hex]
      exact h4
    · intro v hv
      have hv2 : (Option.map (fun n => n.fx) (getNodeJ s.nodes nd.id)).getD none
          = some v := hv
      rw [hex] at hv2
      exact h5 v hv2
    · intro v hv
      have hv2 : (Option.map (fun n => n.fy) (getNodeJ s.nodes nd.id)).getD none
          = some v := hv
      rw [hex] at hv2
      exact h6 v hv2

theorem setNodesJ_finiteOK (list : List JNodeSpec) (s : JState)
    (h : ∀ n ∈ s.nodes, n.finiteOK = true) :
    ∀ n ∈ (setNodesJ list s).nodes, n.finiteOK = true := by
  intro n hn
  rcases mem_setNodesJ_foldl s list [] n hn with h2 | ⟨nd, _, rfl⟩
  · cases h2
  · exact buildJ_finiteOK s nd h

/-- C5 counterexample: `setAlpha`, `setOptions`, `reheat` and
`setAlphaTarget` have no finiteness guard, so NaN and ±Infinity flow
straight into the live alpha and the options — contradicting the claim
that no non-finite value ever enters the simulation state. -/
theorem nonfinite_enters_alpha_cex :
    (setAlphaJ .nan
        { options := {}, alpha := .num 0.3, nodes := [], links := [] }).alpha = .nan ∧
    JSNum.isFinite (setAlphaJ .nan
        { options := {}, alpha := .num 0.3, nodes := [], links := [] }).alpha = false ∧
    (setOptionsJ { alpha := some .inf }
        { options := {}, alpha := .num 0.3, nodes := [], links := [] }).alpha = .inf ∧
    (reheatJ .inf
        { options := {}, alpha := .num 0.3, nodes := [], links := [] }).alpha = .inf ∧
    (setAlphaTargetJ .nan
        { options := {}, alpha := .num 0.3, nodes := [], links := [] }).options.alphaTarget
      = .nan :=
  ⟨rfl, rfl, rfl, rfl, rfl⟩

/-- C5 (amended): the pin operations are guarded — an unknown id makes
`pinNode`, `movePinnedNode` and `unpinNode` no-ops, `movePinnedNode`
rejects any non-finite coordinate, `pinNode` substitutes the node's
current coordinate for a non-finite input, and `setNodes` seeds only
finite coordinates — so node state stays finite; but the alpha/options
operations (`setAlpha`, `setOptions`, `reheat`, `setAlphaTarget`) pass
non-finite inputs through unguarded (see the counterexample). -/
theorem pin_and_node_ops_guard_nonfinite :
    (∀ (id : Nat) (x y : JSNum) (s : JState), getNodeJ s.nodes id = none →
        pinNodeJ id x y s = s ∧ movePinnedNodeJ id x y s = s ∧ unpinNodeJ id s = s) ∧
    (∀ (id : Nat) (x y : JSNum) (s : JState), (x.isFinite && y.isFinite) = false →
        movePinnedNodeJ id x y s = s) ∧
    (∀ (id : Nat) (x y : JSNum) (s : JState), (∀ n ∈ s.nodes, n.finiteOK = true) →
        ∀ n ∈ (pinNodeJ id x y s).nodes, n.finiteOK = true) ∧
    (∀ (list : List JNodeSpec) (s : JState), (∀ n ∈ s.nodes, n.finiteOK = true) →
        ∀ n ∈ (setNodesJ list s).nodes, n.finiteOK = true) :=
  ⟨fun id x y s h => ⟨pinNodeJ_unknown_noop id x y s h,
      movePinnedNodeJ_unknown_noop id x y s h, unpinNodeJ_unknown_noop id s h⟩,
   movePinnedNodeJ_nonfinite_noop,
   pinNodeJ_finiteOK,
   setNodesJ_finiteOK⟩

/-- C5 witness: on a one-node state, pinning an unknown id with NaN/∞ is
a no-op, moving with a NaN coordinate is a no-op, and pinning the known
node with NaN/∞ keeps every node field finite. -/
theorem pin_and_node_ops_guard_nonfinite_witness :
    pinNodeJ 3 .nan .inf
        { options := {}, alpha := .num 0.3,
          nodes := [{ id := 1, x := .num 5, y := .num 6 }], links := [] } =
      { options := {}, alpha := .num 0.3,
        nodes := [{ id := 1, x := .num 5, y := .num 6 }], links := [] } ∧
    movePinnedNodeJ 1 .nan (.num 2)
        { options := {}, alpha := .num 0.3,
          nodes := [{ id := 1, x := .num 5, y := .num 6 }], links := [] } =
      { options := {}, alpha := .num 0.3,
        nodes := [{ id := 1, x := .num 5, y := .num 6 }], links := [] } ∧
    (∀ n ∈ (pinNodeJ 1 .nan .inf
        { options := {}, alpha := .num 0.3,
          nodes := [{ id := 1, x := .num 5, y := .num 6 }], links := [] }).nodes,
      n.finiteOK = true) ∧
    (∀ n ∈ (setNodesJ [{ id := 2, position := some (.inf, .num 4) }]
        { options := {}, alpha := .num 0.3,
          nodes := [{ id := 1, x := .num 5, y := .num 6 }], links := [] }).nodes,
      n.finiteOK = true) :=
  ⟨(pin_and_node_ops_guard_nonfinite.1 3 .nan .inf
      { options := {}, alpha := .num 0.3,
        nodes := [{ id := 1, x := .num 5, y := .num 6 }], links := [] } rfl).1,
   pin_and_node_ops_guard_nonfinite.2.1 1 .nan (.num 2)
      { options := {}, alpha := .num 0.3,
        nodes := [{ id := 1, x := .num 5, y := .num 6 }], links := [] } rfl,
   pin_and_node_ops_guard_nonfinite.2.2.1 1 .nan .inf
      { options := {}, alpha := .num 0.3,
        nodes := [{ id := 1, x := .num 5, y := .num 6 }], links := [] }
     (fun n hn => by rcases List.mem_singleton.mp hn with rfl; rfl),
   pin_and_node_ops_guard_nonfinite.2.2.2 [{ id := 2, position := some (.inf, .num 4) }]
      { options := {}, alpha := .num 0.3,
        nodes := [{ id := 1, x := .num 5, y := .num 6 }], links := [] }
     (fun n hn => by rcases List.mem_singleton.mp hn with rfl; rfl)⟩

theorem upsertNodeJ_append (n : JNode) :
    ∀ l : List JNode, (∀ m ∈ l, m.id ≠ n.id) → upsertNodeJ l n = l ++ [n] := by
  intro l
  induction l with
  | nil => intro _; rfl
  | cons a t ih =>
    intro h
    have ha : ¬ a.id = n.id := h a (List.mem_cons_self a t)
    show (if a.id = n.id then n :: t else a :: upsertNodeJ t n) = a :: (t ++ [n])
    rw [if_neg ha, ih (fun m hm => h m (List.mem_cons_of_mem a hm))]

theorem foldl_buildJ (s : JState) :
    ∀ (rest : List JNodeSpec) (acc : List JNode),
      (rest.map (·.id)).Nodup → (∀ nd ∈ rest, ∀ m ∈ acc, m.id ≠ nd.id) →
      rest.foldl (fun acc nd => upsertNodeJ acc (buildJ s nd)) acc
        = acc ++ rest.map (buildJ s) := by
  intro rest
  induction rest with
  | nil => intro acc _ _; simp
  | cons nd t ih =>
    intro acc hnodup hdisj
    have hpair : (∀ x ∈ t, ¬ x.id = nd.id) ∧ (t.map (·.id)).Nodup := by
      simpa using hnodup
    obtain ⟨hni, hnt⟩ := hpair
    rw [List.foldl_cons,
        upsertNodeJ_append (buildJ s nd) acc
          (fun m hm => hdisj nd (List.mem_cons_self nd t) m hm),
        ih (acc ++ [buildJ s nd]) hnt ?_]
    · simp
    · intro nd2 hnd2 m hm
      rcases List.mem_append.mp hm with h2 | h2
      · exact hdisj nd2 (List.mem_cons_of_mem nd hnd2) m h2
      · rcases List.mem_singleton.mp h2 with rfl
        show nd.id ≠ nd2.id
        intro he
        exact hni nd2 hnd2 he.symm

theorem getNodeJ_map_buildJ (s : JState) :
    ∀ (list : List JNodeSpec), (list.map (·.id)).Nodup → ∀ nd ∈ list,
      getNodeJ (list.map (buildJ s)) nd.id = some (buildJ s nd) := by
  intro list
  induction list with
  | nil => intro _ nd hnd; cases hnd
  | cons hd t ih =>
    intro hnodup nd hnd
    have hpair : (∀ x ∈ t, ¬ x.id = hd.id) ∧ (t.map (·.id)).Nodup := by
      simpa using hnodup
    obtain ⟨hni, hnt⟩ := hpair
    rcases List.mem_cons.mp hnd with rfl | hnd2
    · show (if (buildJ s nd).id = nd.id then some (buildJ s nd)
          else getNodeJ (t.map (buildJ s)) nd.id) = some (buildJ s nd)
      rw [if_pos (show (buildJ s nd).id = nd.id from rfl)]
    · have hne : ¬ (buildJ s hd).id = nd.id := by
        show ¬ hd.id = nd.id
        intro he
        exact hni nd hnd2 he.symm
      show (if (buildJ s hd).id = nd.id then some (buildJ s hd)
          else getNodeJ (t.map (buildJ s)) nd.id) = some (buildJ s nd)
      rw [if_neg hne]
      exact ih hnt nd hnd2

/-- C10: for a `setNodes(list)` call with distinct ids, each listed id
maps to a node whose coordinates come from `seedCoord`: an existing
finite coordinate is preserved (any supplied position for that id is
ignored); an id with no existing node is seeded from the supplied
position via `seedFrom`, which takes the supplied coordinate when finite
and falls back to 0. -/
theorem setNodesJ_preserves_existing_positions (s : JState) (list : List JNodeSpec)
    (hnodup : (list.map (·.id)).Nodup) (nd : JNodeSpec) (hmem : nd ∈ list) :
    ∃ out, getNodeJ (setNodesJ list s).nodes nd.id = some out ∧
      out.x = seedCoord ((getNodeJ s.nodes nd.id).map (·.x)) ((nd.position).map (·.1)) ∧
      out.y = seedCoord ((getNodeJ s.nodes nd.id).map (·.y)) ((nd.position).map (·.2)) ∧
      (∀ ex, getNodeJ s.nodes nd.id = some ex →
        (ex.x.isFinite = true → out.x = ex.x) ∧ (ex.y.isFinite = true → out.y = ex.y)) ∧
      (getNodeJ s.nodes nd.id = none →
        out.x = seedFrom ((nd.position).map (·.1)) ∧
        out.y = seedFrom ((nd.position).map (·.2))) ∧
      (∀ w, seedFrom (some w) = if w.isFinite then w else .num 0) ∧
      seedFrom none = .num 0 := by
  have hnodes : (setNodesJ list s).nodes = list.map (buildJ s) := by
    show list.foldl (fun acc nd => upsertNodeJ acc (buildJ s nd)) [] = _
    rw [foldl_buildJ s list [] hnodup (fun nd2 _ m hm => absurd hm (List.not_mem_nil m))]
    rfl
  refine ⟨buildJ s nd, ?_, rfl, rfl, ?_, ?_, fun w => rfl, rfl⟩
  · rw [hnodes]
    exact getNodeJ_map_buildJ s list hnodup nd hmem
  · intro ex hex
    constructor
    · intro hfin
      show seedCoord ((getNodeJ s.nodes nd.id).map (·.x)) ((nd.position).map (·.1)) = ex.x
      rw [hex]
      show (if ex.x.isFinite = true then ex.x
          else seedFrom ((nd.position).map (·.1))) = ex.x
      simp [hfin]
    · intro hfin
      show seedCoord ((getNodeJ s.nodes nd.id).map (·.y)) ((nd.position).map (·.2)) = ex.y
      rw [hex]
      show (if ex.y.isFinite = true then ex.y
          else seedFrom ((nd.position).map (·.2))) = ex.y
      simp [hfin]
  · intro hnone
    constructor
    · show seedCoord ((getNodeJ s.nodes nd.id).map (·.x)) ((nd.position).map (·.1)) = _
      rw [hnone]
      rfl
    · show seedCoord ((getNodeJ s.nodes nd.id).map (·.y)) ((nd.position).map (·.2)) = _
      rw [hnone]
      rfl

/-- C10 counterexample: the supplied position is not ignored for every
previously-known id — a known node whose stored y is NaN takes the
caller-supplied y 77 (supplied coordinates are ignored only where the
stored coordinate is finite). -/
theorem setNodesJ_supplied_used_for_known_nonfinite_cex :
    getNodeJ (setNodesJ [{ id := 1, position := some (.num 99, .num 77) }]
        { options := {}, alpha := .num 0.3,
          nodes := [{ id := 1, x := .num 5, y := .nan }], links := [] }).nodes 1
      = some { id := 1, x := .num 5, y := .num 77 } := rfl

/-- C10 witness: with an existing node 1 at finite x = 5 and NaN y, a
`setNodes` call supplying (99, 77) for id 1 and nothing for the new id 2
keeps x = 5, reseeds y from the supplied 77, and seeds id 2 at (0, 0). -/
theorem setNodesJ_preserves_existing_positions_witness :
    ∃ out, getNodeJ (setNodesJ
        [{ id := 1, position := some (.num 99, .num 77) }, { id := 2 }]
        { options := {}, alpha := .num 0.3,
          nodes := [{ id := 1, x := .num 5, y := .nan }], links := [] }).nodes
        (JNodeSpec.id { id := 1, position := some (.num 99, .num 77) }) = some out ∧
      out.x = seedCoord ((getNodeJ [{ id := 1, x := .num 5, y := .nan }]
          (JNodeSpec.id { id := 1, position := some (.num 99, .num 77) })).map (·.x))
          (((JNodeSpec.position { id := 1, position := some (.num 99, .num 77) })).map (·.1)) ∧
      out.y = seedCoord ((getNodeJ [{ id := 1, x := .num 5, y := .nan }]
          (JNodeSpec.id { id := 1, position := some (.num 99, .num 77) })).map (·.y))
          (((JNodeSpec.position { id := 1, position := some (.num 99, .num 77) })).map (·.2)) ∧
      (∀ ex, getNodeJ [{ id := 1, x := .num 5, y := .nan }]
          (JNodeSpec.id { id := 1, position := some (.num 99, .num 77) }) = some ex →
        (ex.x.isFinite = true → out.x = ex.x) ∧ (ex.y.isFinite = true → out.y = ex.y)) ∧
      (getNodeJ [{ id := 1, x := .num 5, y := .nan }]
          (JNodeSpec.id { id := 1, position := some (.num 99, .num 77) }) = none →
        out.x = seedFrom (((JNodeSpec.position
            { id := 1, position := some (.num 99, .num 77) })).map (·.1)) ∧
        out.y = seedFrom (((JNodeSpec.position
            { id := 1, position := some (.num 99, .num 77) })).map (·.2))) ∧
      (∀ w, seedFrom (some w) = if w.isFinite then w else .num 0) ∧
      seedFrom none = .num 0 :=
  setNodesJ_preserves_existing_positions
    { options := {}, alpha := .num 0.3,
      nodes := [{ id := 1, x := .num 5, y := .nan }], links := [] }
    [{ id := 1, position := some (.num 99, .num 77) }, { id := 2 }]
    (by decide)
    { id := 1, position := some (.num 99, .num 77) }
    (List.mem_cons_self _ _)

end ForceJ

end AlpineFlow
